/-
Verification of the grid/DCA trading bot core (grid_engine.py, dca_engine.py,
risk_manager.py, trading_bot.py) against its natural-language specification.

The Python code is shallowly embedded: prices and quantities are rationals,
`Optional[T]` becomes `Option T`, the Bybit client is an abstract exchange
port record, and every stateful method becomes a pure function from the old
state (plus the port's responses) to the new state together with the list of
exchange actions (placements / cancellations / callbacks) it issued.
Python's `round(x, n)` is banker's rounding, embedded as `pyRound`.
-/
import Mathlib

namespace BybitBot

/-- Order side, as the strings "Buy"/"Sell" used throughout the source. -/
inductive Side where
  | Buy : Side
  | Sell : Side
deriving DecidableEq, Repr

/-- Order type: the source passes "Limit" or "Market" to `place_order`. -/
inductive OrderType where
  | Limit : OrderType
  | Market : OrderType
deriving DecidableEq, Repr

/-- Round a rational to the nearest integer, ties to even
(the semantics of Python's builtin `round`). -/
def roundHalfEven (x : ℚ) : ℤ :=
  let n := Int.floor x
  let r := x - n
  if r < 1/2 then n
  else if 1/2 < r then n + 1
  else if n % 2 = 0 then n else n + 1

/-- Python's `round(x, d)` on rationals. -/
def pyRound (d : ℕ) (x : ℚ) : ℚ :=
  (roundHalfEven (x * 10 ^ d) : ℚ) / 10 ^ d

/-- `GridConfig` from config.py (lower_price/upper_price are unused by the
engine's automatic grid calculation but kept for fidelity). -/
structure GridConfig where
  lower_price : ℚ
  upper_price : ℚ
  levels : ℕ
  order_size : ℚ
  range_percent : ℚ
deriving DecidableEq, Repr

/-- `DCAConfig` from config.py. -/
structure DCAConfig where
  enabled : Bool
  trigger_percent : ℚ
  order_size : ℚ
  max_orders : ℕ
deriving DecidableEq, Repr

/-- `RiskConfig` from config.py.  The source field names are
kill_switch_enabled / breakeven_enabled / partial_profit_enabled /
partial_profit_percent; the last two are shortened to `pprofit_*` here. -/
structure RiskConfig where
  kill_switch_enabled : Bool
  max_drawdown_percent : ℚ
  breakeven_enabled : Bool
  pprofit_enabled : Bool
  pprofit_percent : ℚ
deriving DecidableEq, Repr

/-- The strategy configuration object consumed by GridEngine
(`strategy_config.grid_win_rate`, `strategy_config.grid_profit_percent`);
its dataclass is not part of config.py, so the fields are taken from their
uses in grid_engine.py. -/
structure StrategyConfig where
  grid_win_rate : ℚ
  grid_profit_percent : ℚ
deriving DecidableEq, Repr

/-- `TradingConfig` from config.py. -/
structure TradingConfig where
  symbol : String
  leverage : ℤ
  initial_capital : ℚ
deriving DecidableEq, Repr

/-- One entry of the open-orders snapshot returned by
`BybitClient.get_open_orders` (only the fields the core reads). -/
structure OpenOrder where
  orderId : String
  symbol : String
deriving DecidableEq, Repr

/-- One coin entry of the wallet-balance response (`result['list']`). -/
structure Coin where
  coin : String
  walletBalance : ℚ
  equity : ℚ
deriving DecidableEq, Repr

/-- One position entry returned by `BybitClient.get_positions`. -/
structure Position where
  symbol : String
  side : String
  size : ℚ
  avgPrice : ℚ
  markPrice : ℚ
  unrealisedPnl : ℚ
  cumRealisedPnl : ℚ
  positionIM : ℚ
  positionIdx : ℕ
deriving DecidableEq, Repr

/-- The exchange port: the responses the Bybit client returns during one
reconciliation pass.  `none` models an unavailable response.  `place` maps a
placement request to the order id the exchange answers with (`none` =
placement rejected); `cancel` is the boolean `cancel_order` outcome. -/
structure Port where
  current_price : Option ℚ
  open_orders : Option (List OpenOrder)
  positions : Option (List Position)
  balance : Option (List Coin)
  place : Side → OrderType → ℚ → Option ℚ → Option String
  cancel : String → Bool

/-- An exchange-visible action issued by the core. -/
inductive Action where
  | placeOrder : Side → OrderType → ℚ → Option ℚ → Option String → Action
  | cancelOrder : String → Bool → Action
  | killCallback : String → Action
deriving DecidableEq, Repr

/-- Python truthiness of an optional price (`if not current_price` is taken
for both `None` and `0.0`). -/
def truthyPrice : Option ℚ → Bool
  | none => false
  | some x => x ≠ 0

/-- Python truthiness of an optional string (`if level.order_id`). -/
def truthyId : Option String → Bool
  | none => false
  | some s => s ≠ ""

/-- Python truthiness of an optional list (`if not open_orders` is taken for
both `None` and the empty list). -/
def truthyList {α : Type} : Option (List α) → Bool
  | none => false
  | some l => !l.isEmpty

/-- `GridLevel` dataclass from grid_engine.py. -/
structure GridLevel where
  level : ℕ
  price : ℚ
  side : Side
  quantity : ℚ
  order_id : Option String := none
  filled : Bool := false
  fill_price : Option ℚ := none
  fill_time : Option ℚ := none
deriving DecidableEq, Repr

/-- One entry of `GridEngine.trades` (only its length is ever read). -/
structure TradeRec where
  side : Side
  price : ℚ
  quantity : ℚ
  order_id : String
deriving DecidableEq, Repr

/-- The mutable state of a `GridEngine`.  `last_price` models the
`self.last_price` attribute that `_place_opposite_order` creates on first
use (`hasattr` false and a stored `None` are both falsy, hence one `none`). -/
structure GridState where
  grid_levels : List GridLevel
  active : Bool
  current_price : ℚ
  trades : List TradeRec
  last_price : Option ℚ
deriving DecidableEq, Repr

/-- The ladder built by `GridEngine.initialize_grid` around `price`: the
source hardcodes `price_range_percent = 0.03` (3 percent both ways,
ignoring the configured range), spaces `cfg.levels` levels linearly across
it, rounds prices to 2 decimals and tags levels strictly below the current
price Buy, the rest Sell. -/
def gridLevelsFor (cfg : GridConfig) (price : ℚ) : List GridLevel :=
  let grid_lower := price * (1 - 3/100)
  let grid_upper := price * (1 + 3/100)
  let base_spacing := (grid_upper - grid_lower) / ((cfg.levels : ℚ) - 1)
  (List.range cfg.levels).map (fun (i : ℕ) =>
    let p := grid_lower + (i : ℚ) * base_spacing
    { level := i
      price := pyRound 2 p
      side := if p < price then Side.Buy else Side.Sell
      quantity := pyRound 4 cfg.order_size })

/-- `GridEngine.initialize_grid`: fetch the price (failure or a 0.0 price
returns False), record it, build the ladder.  With `cfg.levels = 1` the
spacing computation divides by zero; the raised `ZeroDivisionError` is
caught and the method returns False with the ladder untouched (the price
was already recorded). -/
def init_grid (cfg : GridConfig) (port : Port) (s : GridState) :
    GridState × Bool :=
  match port.current_price with
  | none => (s, false)
  | some price =>
    if price = 0 then (s, false)
    else
      let s1 := { s with current_price := price }
      if cfg.levels = 1 then (s1, false)
      else ({ s1 with grid_levels := gridLevelsFor cfg price }, true)

/-- `GridEngine._cancel_all_orders`: for every open order of the configured
symbol with a truthy id, attempt a cancellation (missing/empty snapshot is a
no-op). -/
def cancel_all_orders (tcfg : TradingConfig) (port : Port) : List Action :=
  match port.open_orders with
  | none => []
  | some orders =>
    if orders.isEmpty then []
    else orders.filterMap (fun o =>
      if o.symbol = tcfg.symbol ∧ o.orderId ≠ "" then
        some (Action.cancelOrder o.orderId (port.cancel o.orderId))
      else none)

/-- The exchange's response to one of `start_grid`'s initial limit-order
placements. -/
def startResp (port : Port) (l : GridLevel) : Option String :=
  port.place l.side OrderType.Limit l.quantity (some l.price)

/-- One step of `start_grid`'s initial-placement loop: place a limit order
for an unfilled level (recording the id only on a truthy response), skip a
filled one. -/
def startPlaceStep (port : Port) (acc : List GridLevel × List Action)
    (l : GridLevel) : List GridLevel × List Action :=
  if l.filled then (acc.1 ++ [l], acc.2)
  else
    (acc.1 ++ [if truthyId (startResp port l) then
        { l with order_id := startResp port l }
      else l],
     acc.2 ++ [Action.placeOrder l.side OrderType.Limit l.quantity
       (some l.price) (startResp port l)])

/-- `GridEngine.start_grid`: cancel pre-existing orders, build the ladder if
empty, then place one limit order per unfilled level (failures leave the
level's id untouched); finally mark the engine active.  Note: the source
performs no active-order-count check here. -/
def start_grid (cfg : GridConfig) (tcfg : TradingConfig) (port : Port)
    (s : GridState) : GridState × List Action × Bool :=
  let cacts := cancel_all_orders tcfg port
  let (s1, ok) := if s.grid_levels.isEmpty then init_grid cfg port s else (s, true)
  if ¬ok then (s1, cacts, false)
  else
    let pr := s1.grid_levels.foldl (startPlaceStep port) ([], [])
    ({ s1 with grid_levels := pr.1, active := true }, cacts ++ pr.2, true)

/-- The fill-inference condition of `update_grid` /`_check_filled_orders`:
the level holds a truthy remote order id that is absent from the snapshot
and the level is not yet filled. -/
def staleActive (openIds : List String) (l : GridLevel) : Bool :=
  match l.order_id with
  | none => false
  | some oid => (oid != "") && !(openIds.contains oid) && !l.filled

/-- Marking a level as filled during reconciliation
(`level.filled = True; level.fill_time = time.time()`). -/
def markFilled (now : ℚ) (l : GridLevel) : GridLevel :=
  { l with filled := true, fill_time := some now }

/-- `sum(1 for level in self.grid_levels if level.order_id and not level.filled)`. -/
def activeCount (ls : List GridLevel) : ℕ :=
  (ls.filter (fun l => truthyId l.order_id && !l.filled)).length

/-- The outcome of `GridEngine._place_opposite_order` on the engine fields it
can touch. -/
structure OppositeResult where
  levels : List GridLevel
  trades : List TradeRec
  last_price : Option ℚ
  acts : List Action
  placed : Bool
deriving DecidableEq, Repr

/-- The opposite order's side: a filled Buy spawns a Sell and conversely. -/
def oppSide (filled_level : GridLevel) : Side :=
  if filled_level.side = Side.Buy then Side.Sell else Side.Buy

/-- The opposite order's (unrounded) price: the filled level's price moved
by the configured profit percent, up after a Buy and down after a Sell. -/
def oppPrice (strat : StrategyConfig) (filled_level : GridLevel) : ℚ :=
  if filled_level.side = Side.Buy then
    filled_level.price * (1 + strat.grid_profit_percent / 100)
  else filled_level.price * (1 - strat.grid_profit_percent / 100)

/-- The exchange's response to the opposite order's placement request. -/
def oppResp (strat : StrategyConfig) (port : Port)
    (filled_level : GridLevel) : Option String :=
  port.place (oppSide filled_level) OrderType.Limit filled_level.quantity
    (some (pyRound 2 (oppPrice strat filled_level)))

/-- The volatility guard of `_place_opposite_order` and `_place_dca_order`:
skip when both the fresh price and the remembered one are truthy and the
relative move exceeds `pct`. -/
def volSkip (pct : ℚ) (cur last : Option ℚ) : Bool :=
  truthyPrice cur && truthyPrice last &&
    decide (pct < |cur.getD 0 - last.getD 0| / last.getD 0)

/-- `GridEngine._place_opposite_order`: refuse if 15 or more levels are
active; skip (without recording the price) if the price moved more than 5
percent since the remembered one; remember the fetched price; skip a
configured fraction of fills (`total_trades % 10 >= grid_win_rate / 10`);
otherwise place a limit order at the profit offset from the filled level's
price and on success append it to the ladder as a brand-new level.  (The
source fetches the current price once into a local; the port snapshot is
fixed, so reads of `port.current_price` here denote that one fetch.) -/
def place_opposite_order (strat : StrategyConfig) (port : Port)
    (levels : List GridLevel) (trades : List TradeRec) (last_price : Option ℚ)
    (filled_level : GridLevel) : OppositeResult :=
  if 15 ≤ activeCount levels then ⟨levels, trades, last_price, [], false⟩
  else if volSkip (5/100) port.current_price last_price then
    ⟨levels, trades, last_price, [], false⟩
  else if (strat.grid_win_rate / 10 : ℚ) ≤ ((trades.length % 10 : ℕ) : ℚ) then
    ⟨levels, trades, port.current_price, [], false⟩
  else if truthyId (oppResp strat port filled_level) then
    ⟨levels ++ [{ level := levels.length
                  price := pyRound 2 (oppPrice strat filled_level)
                  side := oppSide filled_level
                  quantity := filled_level.quantity
                  order_id := oppResp strat port filled_level }],
     trades ++ [⟨oppSide filled_level, pyRound 2 (oppPrice strat filled_level),
                 filled_level.quantity, (oppResp strat port filled_level).getD ""⟩],
     port.current_price,
     [Action.placeOrder (oppSide filled_level) OrderType.Limit
       filled_level.quantity (some (pyRound 2 (oppPrice strat filled_level)))
       (oppResp strat port filled_level)], true⟩
  else
    ⟨levels, trades, port.current_price,
     [Action.placeOrder (oppSide filled_level) OrderType.Limit
       filled_level.quantity (some (pyRound 2 (oppPrice strat filled_level)))
       (oppResp strat port filled_level)], false⟩

/-- The loop state of one `update_grid` pass over the ladder. -/
structure GridPass where
  levels : List GridLevel
  trades : List TradeRec
  last_price : Option ℚ
  acts : List Action
deriving DecidableEq, Repr

/-- The `for level in self.grid_levels` loop of `update_grid`.  The source
iterates by index over a list that `_place_opposite_order` appends to, so
levels appended during the pass are themselves visited; since such a loop
need not terminate (each visited fresh level can be inferred filled and spawn
another placement), the embedding spends one unit of `fuel` per visited index
and returns `none` when fuel runs out before the list is exhausted. -/
def gridLoop (strat : StrategyConfig) (port : Port) (now : ℚ)
    (openIds : List String) : ℕ → ℕ → GridPass → Option GridPass
  | 0, i, st => if st.levels.length ≤ i then some st else none
  | fuel + 1, i, st =>
    if h : i < st.levels.length then
      let l := st.levels.get ⟨i, h⟩
      if staleActive openIds l then
        let lm := markFilled now l
        let lvls := st.levels.set i lm
        let r := place_opposite_order strat port lvls st.trades st.last_price lm
        gridLoop strat port now openIds fuel (i + 1)
          ⟨r.levels, r.trades, r.last_price, st.acts ++ r.acts⟩
      else gridLoop strat port now openIds fuel (i + 1) st
    else some st

/-- `GridEngine.update_grid`: a no-op when inactive or when the open-order
snapshot is unavailable or empty (`if not open_orders: return True`);
otherwise diff the ladder against the snapshot's order-id set, marking stale
active levels filled and reacting with opposite orders.  `none` models the
source looping past the given fuel. -/
def update_grid (strat : StrategyConfig) (port : Port) (now : ℚ) (fuel : ℕ)
    (s : GridState) : Option (GridState × List Action) :=
  if ¬s.active then some (s, [])
  else
    match port.open_orders with
    | none => some (s, [])
    | some orders =>
      if orders.isEmpty then some (s, [])
      else
        let openIds := orders.map (fun o => o.orderId)
        match gridLoop strat port now openIds fuel 0
            ⟨s.grid_levels, s.trades, s.last_price, []⟩ with
        | none => none
        | some st =>
          some ({ s with grid_levels := st.levels, trades := st.trades,
                         last_price := st.last_price }, st.acts)

/-- `DCALevel` dataclass from dca_engine.py (no side field: the side is
derived from the engine's trend direction at order time). -/
structure DCALevel where
  level : ℕ
  trigger_price : ℚ
  quantity : ℚ
  order_id : Option String := none
  filled : Bool := false
  fill_price : Option ℚ := none
  fill_time : Option ℚ := none
deriving DecidableEq, Repr

/-- One entry of `DCAEngine.dca_trades` (only its length is ever read; the
recorded price is a fresh, possibly unavailable, ticker fetch). -/
structure DcaTradeRec where
  side : Side
  price : Option ℚ
  quantity : ℚ
  order_id : String
deriving DecidableEq, Repr

/-- The mutable state of a `DCAEngine`.  `last_dca_price` models the
`self.last_dca_price` attribute `_place_dca_order` creates on first use. -/
structure DCAState where
  dca_levels : List DCALevel
  active : Bool
  current_price : ℚ
  last_trigger_price : ℚ
  trend_direction : String
  dca_trades : List DcaTradeRec
  last_dca_price : Option ℚ
deriving DecidableEq, Repr

/-- `sum(1 for level in self.dca_levels if level.order_id and not level.filled)`. -/
def dcaActiveCount (ls : List DCALevel) : ℕ :=
  (ls.filter (fun l => truthyId l.order_id && !l.filled)).length

/-- The DCA ladder built by `DCAEngine.initialize_dca` around `price`:
`max_orders` levels with progressively wider offsets
(`trigger_multiplier = 1.0 + i * 0.2`), below the price for a "down" trend
and above it otherwise, rounded to 2 decimals. -/
def dcaLevelsFor (cfg : DCAConfig) (trend : String) (price : ℚ) : List DCALevel :=
  (List.range cfg.max_orders).map (fun (i : ℕ) =>
    let trigger_multiplier : ℚ := 1 + (i : ℚ) * (2/10)
    let trigger_price :=
      if trend = "down" then
        price * (1 - cfg.trigger_percent / 100 * trigger_multiplier)
      else
        price * (1 + cfg.trigger_percent / 100 * trigger_multiplier)
    { level := i
      trigger_price := pyRound 2 trigger_price
      quantity := pyRound 4 (max (1/1000) cfg.order_size) })

/-- `DCAEngine.initialize_dca`: a no-op success when DCA is disabled; fails
if no truthy price is available; otherwise records the price and rebuilds
the ladder for the current trend direction. -/
def init_dca (cfg : DCAConfig) (port : Port) (s : DCAState) : DCAState × Bool :=
  if ¬cfg.enabled then (s, true)
  else
    match port.current_price with
    | none => (s, false)
    | some price =>
      if price = 0 then (s, false)
      else
        ({ s with current_price := price, last_trigger_price := price,
                  dca_levels := dcaLevelsFor cfg s.trend_direction price }, true)

/-- `DCAEngine._should_trigger_dca`. -/
def should_trigger_dca (trend : String) (l : DCALevel) (current_price : ℚ) : Bool :=
  if trend = "down" then current_price ≤ l.trigger_price
  else l.trigger_price ≤ current_price

/-- The outcome of `DCAEngine._place_dca_order` on the engine fields it can
touch, together with the order id it returns. -/
structure DcaPlaceResult where
  dca_trades : List DcaTradeRec
  last_dca_price : Option ℚ
  acts : List Action
  order_id : Option String
deriving DecidableEq, Repr

/-- `DCAEngine._place_dca_order`: refuse if 15 or more levels are active;
skip (without recording the price) if the price moved more than 8 percent
since the remembered one; remember the fetched price; skip a fixed fraction
of triggers (`len(dca_trades) % 20 >= 13`); otherwise place a market order
for the level's quantity on the trend side. -/
def dcaSide (trend : String) : Side :=
  if trend = "down" then Side.Buy else Side.Sell

/-- The exchange's response to a DCA market order request. -/
def dcaResp (port : Port) (trend : String) (l : DCALevel) : Option String :=
  port.place (dcaSide trend) OrderType.Market l.quantity none

def place_dca_order (port : Port) (trend : String)
    (levels : List DCALevel) (dca_trades : List DcaTradeRec)
    (last_dca_price : Option ℚ) (l : DCALevel) : DcaPlaceResult :=
  if 15 ≤ dcaActiveCount levels then ⟨dca_trades, last_dca_price, [], none⟩
  else if volSkip (8/100) port.current_price last_dca_price then
    ⟨dca_trades, last_dca_price, [], none⟩
  else if 13 ≤ dca_trades.length % 20 then
    ⟨dca_trades, port.current_price, [], none⟩
  else if truthyId (dcaResp port trend l) then
    ⟨dca_trades ++ [⟨dcaSide trend, port.current_price, l.quantity,
        (dcaResp port trend l).getD ""⟩],
     port.current_price,
     [Action.placeOrder (dcaSide trend) OrderType.Market l.quantity none
       (dcaResp port trend l)], dcaResp port trend l⟩
  else
    ⟨dca_trades, port.current_price,
     [Action.placeOrder (dcaSide trend) OrderType.Market l.quantity none
       (dcaResp port trend l)], dcaResp port trend l⟩

/-- The trigger-evaluation loop of `update_dca`: walk the ladder by index,
placing a market order for every idle level whose trigger predicate holds
(`_place_dca_order` returning a truthy id records it on the level). -/
def dcaTriggerLoop (port : Port) (trend : String)
    (current_price : ℚ) (levels : List DCALevel) (i : ℕ)
    (dca_trades : List DcaTradeRec) (last_dca_price : Option ℚ)
    (acts : List Action) :
    List DCALevel × List DcaTradeRec × Option ℚ × List Action :=
  if h : i < levels.length then
    if !(levels.get ⟨i, h⟩).filled &&
        !truthyId (levels.get ⟨i, h⟩).order_id &&
        should_trigger_dca trend (levels.get ⟨i, h⟩) current_price then
      dcaTriggerLoop port trend current_price
        (if truthyId (place_dca_order port trend levels dca_trades
              last_dca_price (levels.get ⟨i, h⟩)).order_id then
           levels.set i { levels.get ⟨i, h⟩ with
             order_id := (place_dca_order port trend levels dca_trades
               last_dca_price (levels.get ⟨i, h⟩)).order_id }
         else levels)
        (i + 1)
        (place_dca_order port trend levels dca_trades last_dca_price
          (levels.get ⟨i, h⟩)).dca_trades
        (place_dca_order port trend levels dca_trades last_dca_price
          (levels.get ⟨i, h⟩)).last_dca_price
        (acts ++ (place_dca_order port trend levels dca_trades last_dca_price
          (levels.get ⟨i, h⟩)).acts)
    else
      dcaTriggerLoop port trend current_price levels (i + 1)
        dca_trades last_dca_price acts
  else (levels, dca_trades, last_dca_price, acts)
termination_by levels.length - i
decreasing_by
  · split
    · rw [List.length_set]
      omega
    · omega
  · omega

/-- `DCAEngine._create_next_dca_level`: the level appended after a fill —
index one past the filled level's, trigger one configured percent step
beyond the filled level's trigger (not the initial progression's offset),
quantity taken raw from the configuration; nothing is appended when the
next index would reach `max_orders`. -/
def createNextDcaLevel (cfg : DCAConfig) (trend : String) (l : DCALevel) :
    Option DCALevel :=
  let next_level := l.level + 1
  if cfg.max_orders ≤ next_level then none
  else
    let trigger_price :=
      if trend = "down" then l.trigger_price * (1 - cfg.trigger_percent / 100)
      else l.trigger_price * (1 + cfg.trigger_percent / 100)
    some { level := next_level
           trigger_price := pyRound 2 trigger_price
           quantity := cfg.order_size }

/-- The fill-inference condition of `_check_filled_orders` (same shape as the
grid engine's). -/
def staleDca (openIds : List String) (l : DCALevel) : Bool :=
  match l.order_id with
  | none => false
  | some oid => (oid != "") && !(openIds.contains oid) && !l.filled

/-- Marking a DCA level as filled. -/
def dcaMarkFilled (now : ℚ) (l : DCALevel) : DCALevel :=
  { l with filled := true, fill_time := some now }

/-- `DCAEngine._check_filled_orders`: a no-op when the snapshot is
unavailable or empty; otherwise mark every stale active level filled and,
for each such level below the final index, append the next ladder level.
The source appends while iterating over the same list, but every appended
level carries no order id, so the extra visits change nothing; this
single-pass form produces the identical final list. -/
def dcaCheckFilled (cfg : DCAConfig) (port : Port) (trend : String) (now : ℚ)
    (levels : List DCALevel) : List DCALevel :=
  match port.open_orders with
  | none => levels
  | some orders =>
    if orders.isEmpty then levels
    else
      let openIds := orders.map (fun o => o.orderId)
      let marked := levels.map (fun l =>
        if staleDca openIds l then dcaMarkFilled now l else l)
      let appended := levels.filterMap (fun l =>
        if staleDca openIds l ∧ l.level < cfg.max_orders - 1 then
          createNextDcaLevel cfg trend l
        else none)
      marked ++ appended

/-- `DCAEngine.update_dca`: a no-op when inactive/disabled or when no truthy
price is available; otherwise record the price, run the trigger loop and
then the fill check. -/
def update_dca (cfg : DCAConfig) (port : Port) (now : ℚ) (s : DCAState) :
    DCAState × List Action :=
  if ¬s.active ∨ ¬cfg.enabled then (s, [])
  else
    match port.current_price with
    | none => (s, [])
    | some cur =>
      if cur = 0 then (s, [])
      else
        let tr := dcaTriggerLoop port s.trend_direction cur
          s.dca_levels 0 s.dca_trades s.last_dca_price []
        let lv2 := dcaCheckFilled cfg port s.trend_direction now tr.1
        ({ s with current_price := cur, dca_levels := lv2,
                  dca_trades := tr.2.1, last_dca_price := tr.2.2.1 }, tr.2.2.2)

/-- `RiskMetrics` dataclass from risk_manager.py. -/
structure RiskMetrics where
  current_balance : ℚ
  equity : ℚ
  margin_used : ℚ
  unrealized_pnl : ℚ
  realized_pnl : ℚ
  max_drawdown : ℚ
  current_drawdown : ℚ
  margin_ratio : ℚ
deriving DecidableEq, Repr

/-- The mutable state of a `RiskManager`.  The two order-tracking dicts are
association lists keyed by position index; `peak_balance` and
`max_drawdown_reached` start at 0.  The source field names for the
partial-profit map are shortened to `pprofit_orders`. -/
structure RiskState where
  kill_switch_triggered : Bool
  breakeven_orders : List (ℕ × String)
  pprofit_orders : List (ℕ × String)
  peak_balance : ℚ
  max_drawdown_reached : ℚ
deriving DecidableEq, Repr

/-- The balance-processing loop of `get_risk_metrics`: the wallet balance and
equity of the first USDT coin entry, 0 when absent. -/
def usdtWallet (coins : List Coin) : ℚ × ℚ :=
  match coins.find? (fun c => c.coin = "USDT") with
  | some c => (c.walletBalance, c.equity)
  | none => (0, 0)

/-- `RiskManager.get_risk_metrics`: returns `none` (leaving the state
untouched) when the balance response is unavailable or when the positions
response is unavailable **or an empty list** (`if not positions`); otherwise
sums pnl/margin over the configured symbol's positions, raises the
`peak_balance` high-water mark on a strictly higher balance, derives the
current drawdown against the updated peak, and raises
`max_drawdown_reached` on a strictly higher drawdown. -/
def get_risk_metrics (tcfg : TradingConfig) (port : Port) (s : RiskState) :
    RiskState × Option RiskMetrics :=
  match port.balance with
  | none => (s, none)
  | some balance_info =>
    match port.positions with
    | none => (s, none)
    | some positions =>
      if positions.isEmpty then (s, none)
      else
        let bal := usdtWallet balance_info
        let current_balance := bal.1
        let equity := bal.2
        let mine := positions.filter (fun p => p.symbol = tcfg.symbol)
        let unrealized_pnl := (mine.map (fun p => p.unrealisedPnl)).sum
        let realized_pnl := (mine.map (fun p => p.cumRealisedPnl)).sum
        let margin_used := (mine.map (fun p => p.positionIM)).sum
        let peak :=
          if s.peak_balance < current_balance then current_balance
          else s.peak_balance
        let current_drawdown :=
          if 0 < peak then (peak - current_balance) / peak * 100 else 0
        let mdd :=
          if s.max_drawdown_reached < current_drawdown then current_drawdown
          else s.max_drawdown_reached
        let margin_ratio := if 0 < equity then margin_used / equity * 100 else 0
        ({ s with peak_balance := peak, max_drawdown_reached := mdd },
         some ⟨current_balance, equity, margin_used, unrealized_pnl,
               realized_pnl, mdd, current_drawdown, margin_ratio⟩)

/-- `RiskManager.trigger_kill_switch`: an immediate no-op when already
triggered; otherwise set the flag, market-close every open position of the
configured symbol with positive reported size (absolute size, opposite
side), cancel every open order of the symbol, and invoke the registered
kill-switch callback. -/
def trigger_kill_switch (tcfg : TradingConfig) (port : Port)
    (cbRegistered : Bool) (s : RiskState) (reason : String) :
    RiskState × List Action :=
  if s.kill_switch_triggered then (s, [])
  else
    let closeActs :=
      match port.positions with
      | none => []
      | some positions =>
        if positions.isEmpty then []
        else positions.filterMap (fun p =>
          if p.symbol = tcfg.symbol ∧ 0 < p.size then
            let side := if p.side = "Buy" then Side.Sell else Side.Buy
            some (Action.placeOrder side OrderType.Market |p.size| none
              (port.place side OrderType.Market |p.size| none))
          else none)
    let cancelActs :=
      match port.open_orders with
      | none => []
      | some orders =>
        if orders.isEmpty then []
        else orders.filterMap (fun o =>
          if o.symbol = tcfg.symbol then
            some (Action.cancelOrder o.orderId (port.cancel o.orderId))
          else none)
    let cbActs := if cbRegistered then [Action.killCallback reason] else []
    ({ s with kill_switch_triggered := true },
     closeActs ++ cancelActs ++ cbActs)

/-- `RiskManager._check_breakeven_opportunities` together with
`_place_breakeven_order`: for each position of the symbol with positive size
and positive unrealized pnl whose index is not yet tracked, place a limit
order at the entry price (absolute size, opposite side) and on success
record it (the breakeven callback only logs). -/
def check_breakeven (tcfg : TradingConfig) (port : Port) (s : RiskState) :
    RiskState × List Action :=
  match port.positions with
  | none => (s, [])
  | some positions =>
    if positions.isEmpty then (s, [])
    else positions.foldl
      (fun (acc : RiskState × List Action) p =>
        if p.symbol = tcfg.symbol ∧ 0 < p.size ∧ 0 < p.unrealisedPnl ∧
            (∀ e ∈ acc.1.breakeven_orders, e.1 ≠ p.positionIdx) then
          let side := if p.side = "Buy" then Side.Sell else Side.Buy
          let r := port.place side OrderType.Limit |p.size| (some p.avgPrice)
          let act := Action.placeOrder side OrderType.Limit |p.size|
            (some p.avgPrice) r
          if truthyId r then
            ({ acc.1 with breakeven_orders :=
                acc.1.breakeven_orders ++ [(p.positionIdx, r.getD "")] },
             acc.2 ++ [act])
          else (acc.1, acc.2 ++ [act])
        else acc)
      (s, [])

/-- `RiskManager._check_partial_profit_opportunities` together with
`_place_partial_profit_order`: for each position of the symbol with positive
size whose mark price has moved a 2x multiple beyond entry in the favorable
direction and whose index is not yet tracked, place a market order for the
configured percentage of the size and on success record it. -/
def check_pprofit (rcfg : RiskConfig) (tcfg : TradingConfig) (port : Port)
    (s : RiskState) : RiskState × List Action :=
  match port.positions with
  | none => (s, [])
  | some positions =>
    if positions.isEmpty then (s, [])
    else positions.foldl
      (fun (acc : RiskState × List Action) p =>
        if p.symbol = tcfg.symbol ∧ 0 < p.size ∧
            ((p.side = "Buy" ∧ p.avgPrice * 2 ≤ p.markPrice) ∨
             (p.side = "Sell" ∧ p.markPrice ≤ p.avgPrice / 2)) ∧
            (∀ e ∈ acc.1.pprofit_orders, e.1 ≠ p.positionIdx) then
          let psize := p.size * (rcfg.pprofit_percent / 100)
          let side := if p.side = "Buy" then Side.Sell else Side.Buy
          let r := port.place side OrderType.Market psize none
          let act := Action.placeOrder side OrderType.Market psize none r
          if truthyId r then
            ({ acc.1 with pprofit_orders :=
                acc.1.pprofit_orders ++ [(p.positionIdx, r.getD "")] },
             acc.2 ++ [act])
          else (acc.1, acc.2 ++ [act])
        else acc)
      (s, [])

/-- `RiskManager.check_risk_limits`: returns False immediately when the kill
switch is already on; returns True with no action when metrics are
unavailable; triggers the kill switch and returns False when the current
drawdown reaches the configured maximum; otherwise runs the optional
breakeven / partial-profit policies (the high-margin warning only logs) and
returns True. -/
def check_risk_limits (rcfg : RiskConfig) (tcfg : TradingConfig) (port : Port)
    (cbRegistered : Bool) (s : RiskState) : RiskState × Bool × List Action :=
  if s.kill_switch_triggered then (s, false, [])
  else
    let gm := get_risk_metrics tcfg port s
    match gm.2 with
    | none => (gm.1, true, [])
    | some m =>
      if rcfg.max_drawdown_percent ≤ m.current_drawdown then
        let tk := trigger_kill_switch tcfg port cbRegistered gm.1
          "Maximum drawdown reached"
        (tk.1, false, tk.2)
      else
        let be := if rcfg.breakeven_enabled then check_breakeven tcfg port gm.1
          else (gm.1, [])
        let pp := if rcfg.pprofit_enabled then check_pprofit rcfg tcfg port be.1
          else (be.1, [])
        (pp.1, true, be.2 ++ pp.2)

/-- The state owned by `TradingBot` that the periodic cycle touches. -/
structure BotState where
  running : Bool
  risk : RiskState
  grid : GridState
  dca : DCAState
deriving DecidableEq, Repr

/-- The step of the periodic cycle an event belongs to. -/
inductive Phase where
  | risk : Phase
  | grid : Phase
  | dca : Phase
  | status : Phase
deriving DecidableEq, Repr

/-- The position of a phase in the cycle's fixed order. -/
def Phase.rank : Phase → ℕ
  | .risk => 0
  | .grid => 1
  | .dca => 2
  | .status => 3

/-- An observable event of one `_main_loop` iteration: the risk-check verdict,
an exchange action tagged with the phase that issued it, or the account/PnL
status observation. -/
inductive LoopEv where
  | riskCheck : Bool → LoopEv
  | act : Phase → Action → LoopEv
  | statusLog : LoopEv
deriving DecidableEq, Repr

/-- The phase rank of an event. -/
def LoopEv.rank : LoopEv → ℕ
  | .riskCheck _ => 0
  | .act ph _ => ph.rank
  | .statusLog => 3

/-- The configuration bundle a `TradingBot` is built from. -/
structure BotCfg where
  grid : GridConfig
  dca : DCAConfig
  risk : RiskConfig
  strategy : StrategyConfig
  trading : TradingConfig
deriving DecidableEq, Repr

/-- One iteration of `TradingBot._main_loop`: check risk limits first — on a
False verdict set `running := False` and break without touching either
engine — then update the grid engine, then the DCA engine, then log the
account status.  The kill-switch callback is always registered by the bot's
constructor.  `none` models a grid pass that exceeds its fuel. -/
def botIteration (cfg : BotCfg) (port : Port) (now : ℚ) (gfuel : ℕ)
    (s : BotState) : Option (BotState × List LoopEv × Bool) :=
  let rc := check_risk_limits cfg.risk cfg.trading port true s.risk
  let revs := LoopEv.riskCheck rc.2.1 :: rc.2.2.map (LoopEv.act Phase.risk)
  if ¬rc.2.1 then
    some ({ s with risk := rc.1, running := false }, revs, false)
  else
    match update_grid cfg.strategy port now gfuel s.grid with
    | none => none
    | some (g, gacts) =>
      let dc := update_dca cfg.dca port now s.dca
      some ({ s with risk := rc.1, grid := g, dca := dc.1 },
        revs ++ gacts.map (LoopEv.act Phase.grid)
             ++ dc.2.map (LoopEv.act Phase.dca) ++ [LoopEv.statusLog], true)

/-- `TradingBot._main_loop`: run one iteration per scheduled tick (each tick
supplies the port responses and the clock reading) while `running` holds,
stopping as soon as an iteration's risk check signals False.  Returns the
final state and the per-iteration event traces. -/
def mainLoop (cfg : BotCfg) (gfuel : ℕ) :
    List (Port × ℚ) → BotState → Option (BotState × List (List LoopEv))
  | [], s => some (s, [])
  | (port, now) :: rest, s =>
    if ¬s.running then some (s, [])
    else
      match botIteration cfg port now gfuel s with
      | none => none
      | some (s', evs, cont) =>
        if ¬cont then some (s', [evs])
        else
          match mainLoop cfg gfuel rest s' with
          | none => none
          | some (sf, its) => some (sf, evs :: its)

/-- One `get_risk_metrics` call viewed as a state transformer. -/
def risk_metrics_step (tcfg : TradingConfig) (s : RiskState) (port : Port) :
    RiskState :=
  (get_risk_metrics tcfg port s).1

/-- A sequence of `get_risk_metrics` calls against successive port
responses. -/
def risk_metrics_run (tcfg : TradingConfig) (s : RiskState)
    (ports : List Port) : RiskState :=
  ports.foldl (risk_metrics_step tcfg) s

/-- The condition under which `get_risk_metrics` proceeds to compute
metrics: a balance response is present and the positions response is a
non-empty list. -/
def risk_data_ok (port : Port) : Bool :=
  port.balance.isSome && truthyList port.positions

lemma risk_metrics_step_peak (tcfg : TradingConfig) (s : RiskState)
    (port : Port) :
    (risk_metrics_step tcfg s port).peak_balance =
      if risk_data_ok port then
        max s.peak_balance (usdtWallet (port.balance.getD [])).1
      else s.peak_balance := by
  unfold risk_metrics_step get_risk_metrics risk_data_ok truthyList
  rcases port.balance with _ | coins <;> rcases hp : port.positions with _ | ps
  · simp [hp]
  · simp [hp]
  · simp [hp]
  · rcases ps with _ | ⟨p, ps⟩
    · simp [hp]
    · simp only [hp]
      rcases lt_or_ge s.peak_balance (usdtWallet coins).1 with h | h
      · simp [h, max_eq_right h.le]
      · simp [not_lt.mpr h, max_eq_left h]

lemma risk_metrics_step_peak_le (tcfg : TradingConfig) (s : RiskState)
    (port : Port) :
    s.peak_balance ≤ (risk_metrics_step tcfg s port).peak_balance := by
  rw [risk_metrics_step_peak]
  split
  · exact le_max_left _ _
  · exact le_rfl

lemma risk_metrics_step_mdd (tcfg : TradingConfig) (s : RiskState)
    (port : Port) :
    (risk_metrics_step tcfg s port).max_drawdown_reached =
      if risk_data_ok port then
        max s.max_drawdown_reached
          (let bal := (usdtWallet (port.balance.getD [])).1
           let peak := max s.peak_balance bal
           if 0 < peak then (peak - bal) / peak * 100 else 0)
      else s.max_drawdown_reached := by
  unfold risk_metrics_step get_risk_metrics risk_data_ok truthyList
  rcases port.balance with _ | coins <;> rcases hp : port.positions with _ | ps
  · simp [hp]
  · simp [hp]
  · simp [hp]
  · rcases ps with _ | ⟨p, ps⟩
    · simp [hp]
    · simp only [hp]
      have hpk : (if s.peak_balance < (usdtWallet coins).1
          then (usdtWallet coins).1 else s.peak_balance) =
          max s.peak_balance (usdtWallet coins).1 := by
        rcases lt_or_ge s.peak_balance (usdtWallet coins).1 with h | h
        · simp [h, max_eq_right h.le]
        · simp [not_lt.mpr h, max_eq_left h]
      simp only [Option.getD, hpk]
      set dd := (if 0 < max s.peak_balance (usdtWallet coins).1 then
        (max s.peak_balance (usdtWallet coins).1 - (usdtWallet coins).1) /
          max s.peak_balance (usdtWallet coins).1 * 100 else 0) with hdd
      rcases lt_or_ge s.max_drawdown_reached dd with h | h
      · simp [← hdd, h, max_eq_right h.le]
      · simp [← hdd, not_lt.mpr h, max_eq_left h]

lemma risk_metrics_step_mdd_le (tcfg : TradingConfig) (s : RiskState)
    (port : Port) :
    s.max_drawdown_reached ≤
      (risk_metrics_step tcfg s port).max_drawdown_reached := by
  rw [risk_metrics_step_mdd]
  split
  · exact le_max_left _ _
  · exact le_rfl

lemma risk_metrics_run_peak_le (tcfg : TradingConfig) :
    ∀ (ports : List Port) (s : RiskState),
      s.peak_balance ≤ (risk_metrics_run tcfg s ports).peak_balance
  | [], _ => le_rfl
  | p :: ps, s =>
    le_trans (risk_metrics_step_peak_le tcfg s p)
      (risk_metrics_run_peak_le tcfg ps (risk_metrics_step tcfg s p))

lemma risk_metrics_run_mdd_le (tcfg : TradingConfig) :
    ∀ (ports : List Port) (s : RiskState),
      s.max_drawdown_reached ≤
        (risk_metrics_run tcfg s ports).max_drawdown_reached
  | [], _ => le_rfl
  | p :: ps, s =>
    le_trans (risk_metrics_step_mdd_le tcfg s p)
      (risk_metrics_run_mdd_le tcfg ps (risk_metrics_step tcfg s p))

/-- C4: across any sequence of `get_risk_metrics` calls, against any
sequence of exchange responses, `peak_balance` and `max_drawdown_reached`
never decrease; one call leaves both untouched when balance/position data
is unavailable, and otherwise raises them exactly to the maximum of the old
mark and the newly observed balance / drawdown. -/
theorem c4_risk_monotone (tcfg : TradingConfig) (s : RiskState)
    (ports : List Port) :
    (s.peak_balance ≤ (risk_metrics_run tcfg s ports).peak_balance ∧
     s.max_drawdown_reached ≤
       (risk_metrics_run tcfg s ports).max_drawdown_reached) ∧
    ∀ port : Port,
      (risk_metrics_step tcfg s port).peak_balance =
        (if risk_data_ok port then
          max s.peak_balance (usdtWallet (port.balance.getD [])).1
         else s.peak_balance) ∧
      (risk_metrics_step tcfg s port).max_drawdown_reached =
        (if risk_data_ok port then
          max s.max_drawdown_reached
            (let bal := (usdtWallet (port.balance.getD [])).1
             let peak := max s.peak_balance bal
             if 0 < peak then (peak - bal) / peak * 100 else 0)
         else s.max_drawdown_reached) :=
  ⟨⟨risk_metrics_run_peak_le tcfg ports s, risk_metrics_run_mdd_le tcfg ports s⟩,
   fun port => ⟨risk_metrics_step_peak tcfg s port,
                risk_metrics_step_mdd tcfg s port⟩⟩

/-- C3: `trigger_kill_switch` is idempotent — on a state with the kill
switch already on it returns that state unchanged and issues no action, and
for two consecutive calls the second returns the first call's terminal
state unchanged with no further position-close/cancel actions. -/
theorem c3_kill_switch_idempotent (tcfg : TradingConfig) (port : Port)
    (cb : Bool) (s : RiskState) (r1 r2 : String) :
    trigger_kill_switch tcfg port cb
        { s with kill_switch_triggered := true } r2 =
      ({ s with kill_switch_triggered := true }, []) ∧
    trigger_kill_switch tcfg port cb
        (trigger_kill_switch tcfg port cb s r1).1 r2 =
      ((trigger_kill_switch tcfg port cb s r1).1, []) := by
  constructor
  · simp [trigger_kill_switch]
  · by_cases h : s.kill_switch_triggered
    · simp [trigger_kill_switch, h]
    · simp [trigger_kill_switch, h]

/-- C10: an empty positions list from the exchange port is treated exactly
like an unavailable one — `get_risk_metrics` returns `none` with the state
untouched either way, so `check_risk_limits` takes no action that cycle:
state unchanged, no orders placed or cancelled, and the verdict is True
unless the kill switch was already on. -/
theorem c10_empty_positions (rcfg : RiskConfig) (tcfg : TradingConfig)
    (cb : Bool) (s : RiskState) (cp : Option ℚ)
    (oo : Option (List OpenOrder)) (bal : Option (List Coin))
    (pl : Side → OrderType → ℚ → Option ℚ → Option String)
    (cn : String → Bool) :
    get_risk_metrics tcfg ⟨cp, oo, some [], bal, pl, cn⟩ s = (s, none) ∧
    get_risk_metrics tcfg ⟨cp, oo, some [], bal, pl, cn⟩ s =
      get_risk_metrics tcfg ⟨cp, oo, none, bal, pl, cn⟩ s ∧
    check_risk_limits rcfg tcfg ⟨cp, oo, some [], bal, pl, cn⟩ cb s =
      (s, !s.kill_switch_triggered, []) := by
  have hm : get_risk_metrics tcfg ⟨cp, oo, some [], bal, pl, cn⟩ s =
      (s, none) := by
    unfold get_risk_metrics
    rcases bal with _ | coins <;> simp
  refine ⟨hm, ?_, ?_⟩
  · rw [hm]
    unfold get_risk_metrics
    rcases bal with _ | coins <;> simp
  · unfold check_risk_limits
    by_cases h : s.kill_switch_triggered
    · simp [h]
    · simp [h, hm]

/-- A port that only answers the ticker request, with price `p`. -/
def portP (p : ℚ) : Port :=
  ⟨some p, none, none, none, fun _ _ _ _ => none, fun _ => false⟩

/-- The grid engine's state as constructed by `GridEngine.__init__`. -/
def gs0 : GridState := ⟨[], false, 0, [], none⟩

/-- The DCA engine's state as constructed by `DCAEngine.__init__`, with the
trend direction subsequently set by `start_dca`. -/
def ds0 (trend : String) : DCAState := ⟨[], false, 0, 0, trend, [], none⟩

/-- C6 counterexample: grid initialization ignores the configured range.
With the configured range percent set to 10 and reference price 100 the
claim puts the lowest level at `100 * (1 - 10/100) = 90`, but the source
hardcodes a 3 percent band, yielding prices {97, 98.5, 100, 101.5, 103}. -/
theorem c6_counterexample :
    (init_grid ⟨50000, 70000, 5, 1, 10⟩ (portP 100) gs0).1.grid_levels.map
        (fun l => l.price) = [97, 197/2, 100, 203/2, 103] ∧
      ¬((97 : ℚ) = 100 * (1 - 10/100)) := by
  constructor
  · have hr : List.range 5 = [0, 1, 2, 3, 4] := rfl
    norm_num [init_grid, portP, gs0, gridLevelsFor, hr, pyRound,
      roundHalfEven, -Int.self_sub_floor]
  · norm_num

/-- C6 as amended: grid initialization always uses the hardcoded 3 percent
band — it is independent of the configured range and bounds — and (for a
truthy fetched price and at least 2 levels) builds exactly `cfg.levels`
levels at linearly spaced prices across that band, rounded to 2 decimals,
tagged Buy strictly below the reference and Sell otherwise; the concrete
reference=100, levels=5 scenario yields {97, 98.5, 100, 101.5, 103} with
sides {Buy, Buy, Sell, Sell, Sell}. -/
theorem c6_amended (cfg : GridConfig) (price : ℚ) (s : GridState)
    (port : Port) (hcp : port.current_price = some price) (hp : price ≠ 0)
    (h2 : 2 ≤ cfg.levels) :
    (init_grid cfg port s).2 = true ∧
    (init_grid cfg port s).1.grid_levels.length = cfg.levels ∧
    (∀ rp lp up : ℚ,
      init_grid { cfg with lower_price := lp, upper_price := up,
                           range_percent := rp } port s =
        init_grid cfg port s) ∧
    (∀ i, i < cfg.levels →
      (init_grid cfg port s).1.grid_levels[i]? =
        some { level := i
               price := pyRound 2 (price * (1 - 3/100) + (i : ℚ) *
                 ((price * (1 + 3/100) - price * (1 - 3/100)) /
                   ((cfg.levels : ℚ) - 1)))
               side := if price * (1 - 3/100) + (i : ℚ) *
                   ((price * (1 + 3/100) - price * (1 - 3/100)) /
                     ((cfg.levels : ℚ) - 1)) < price
                 then Side.Buy else Side.Sell
               quantity := pyRound 4 cfg.order_size }) ∧
    (init_grid ⟨50000, 70000, 5, 1, 3⟩ (portP 100) gs0).1.grid_levels.map
        (fun l => (l.price, l.side)) =
      [(97, Side.Buy), (197/2, Side.Buy), (100, Side.Sell),
       (203/2, Side.Sell), (103, Side.Sell)] := by
  have h1 : cfg.levels ≠ 1 := by omega
  have hscn : (init_grid ⟨50000, 70000, 5, 1, 3⟩ (portP 100) gs0).1.grid_levels.map
      (fun l => (l.price, l.side)) =
      [(97, Side.Buy), (197/2, Side.Buy), (100, Side.Sell),
       (203/2, Side.Sell), (103, Side.Sell)] := by
    have hr : List.range 5 = [0, 1, 2, 3, 4] := rfl
    norm_num [init_grid, portP, gs0, gridLevelsFor, hr, pyRound,
      roundHalfEven, -Int.self_sub_floor]
  refine ⟨?_, ?_, ?_, ?_, hscn⟩
  · simp [init_grid, hcp, hp, h1]
  · simp [init_grid, hcp, hp, h1, gridLevelsFor]
  · intro rp lp up
    simp [init_grid, hcp, hp, h1, gridLevelsFor]
  · intro i hi
    simp only [init_grid, hcp, hp, h1, gridLevelsFor, if_false, if_neg hp,
      if_neg h1]
    simp [List.getElem?_map, List.getElem?_range hi]

/-- C7 counterexample: the claim's exact trigger-offset formula fails under
the source's 2-decimal rounding.  Down-trend, trigger percent 1, two
levels, price 1: the claim puts level 1's trigger at
`1 * (1 - 1/100 * 1.2) = 0.988`, but the source stores `round(0.988, 2) =
0.99`. -/
theorem c7_counterexample :
    (init_dca ⟨true, 1, 1, 2⟩ (portP 1) (ds0 "down")).1.dca_levels.map
        (fun l => l.trigger_price) = [99/100, 99/100] ∧
      ¬((99/100 : ℚ) = 1 * (1 - 1/100 * (1 + (1 : ℚ) * (2/10)))) := by
  constructor
  · have hr : List.range 2 = [0, 1] := rfl
    norm_num [init_dca, portP, ds0, dcaLevelsFor, hr, pyRound,
      roundHalfEven, -Int.self_sub_floor]
  · norm_num

/-- C7 as amended: DCA initialization builds exactly `max_orders` levels
whose trigger prices are the progressive-offset formula
`price * (1 ∓ trigger_percent/100 * (1 + 0.2*i))` rounded to 2 decimals —
below the price for a "down" trend and above it otherwise; the concrete
down-trend scenario (2 percent, 3 levels, price 100) yields
{98.0, 97.6, 97.2}. -/
theorem c7_amended (cfg : DCAConfig) (price : ℚ) (s : DCAState)
    (port : Port) (hen : cfg.enabled = true)
    (hcp : port.current_price = some price) (hp : price ≠ 0) :
    (init_dca cfg port s).2 = true ∧
    (init_dca cfg port s).1.dca_levels.length = cfg.max_orders ∧
    (∀ i, i < cfg.max_orders →
      (init_dca cfg port s).1.dca_levels[i]? =
        some { level := i
               trigger_price := pyRound 2
                 (if s.trend_direction = "down" then
                    price * (1 - cfg.trigger_percent / 100 *
                      (1 + (i : ℚ) * (2/10)))
                  else
                    price * (1 + cfg.trigger_percent / 100 *
                      (1 + (i : ℚ) * (2/10))))
               quantity := pyRound 4 (max (1/1000) cfg.order_size) }) ∧
    (init_dca ⟨true, 2, 1, 3⟩ (portP 100) (ds0 "down")).1.dca_levels.map
        (fun l => l.trigger_price) = [98, 488/5, 486/5] := by
  have hscn : (init_dca ⟨true, 2, 1, 3⟩ (portP 100) (ds0 "down")).1.dca_levels.map
      (fun l => l.trigger_price) = [98, 488/5, 486/5] := by
    have hr : List.range 3 = [0, 1, 2] := rfl
    norm_num [init_dca, portP, ds0, dcaLevelsFor, hr, pyRound,
      roundHalfEven, -Int.self_sub_floor]
  refine ⟨?_, ?_, ?_, hscn⟩
  · simp [init_dca, hen, hcp, hp]
  · simp [init_dca, hen, hcp, hp, dcaLevelsFor]
  · intro i hi
    simp only [init_dca, hen, hcp, hp, dcaLevelsFor, if_neg hp,
      Bool.not_true, if_false]
    by_cases hd : s.trend_direction = "down" <;>
      simp [hd, List.getElem?_map, List.getElem?_range hi]

/-- C8 counterexample: with `max_orders = 3` and the full three-level ladder
already built (so `max_orders` is reached in the level-count sense), the
fill of level 0 still appends a level; and the appended level's trigger is
one fixed 2 percent step from the filled trigger (96.04), not the initial
progression's offset for index 1 (97.6). -/
theorem c8_counterexample :
    dcaCheckFilled ⟨true, 2, 1, 3⟩
        ⟨none, some [⟨"x", "BTCUSDT"⟩], none, none,
         fun _ _ _ _ => none, fun _ => false⟩ "down" 7
        [⟨0, 98, 1, some "a", false, none, none⟩,
         ⟨1, 488/5, 1, none, false, none, none⟩,
         ⟨2, 486/5, 1, none, false, none, none⟩] =
      [⟨0, 98, 1, some "a", true, none, some 7⟩,
       ⟨1, 488/5, 1, none, false, none, none⟩,
       ⟨2, 486/5, 1, none, false, none, none⟩,
       ⟨1, 2401/25, 1, none, false, none, none⟩] ∧
    ¬((2401/25 : ℚ) = pyRound 2 (100 * (1 - 2/100 * (1 + (1 : ℚ) * (2/10))))) := by
  constructor
  · simp +decide [dcaCheckFilled, staleDca, dcaMarkFilled, createNextDcaLevel]
    norm_num [pyRound, roundHalfEven, -Int.self_sub_floor]
  · norm_num [pyRound, roundHalfEven, -Int.self_sub_floor]

lemma dca_append_guard_iff (m l : ℕ) : l < m - 1 ↔ l + 1 < m := by omega

lemma dca_appends_length (cfg : DCAConfig) (trend : String)
    (openIds : List String) : ∀ levels : List DCALevel,
    (levels.filterMap (fun l =>
      if staleDca openIds l ∧ l.level < cfg.max_orders - 1 then
        createNextDcaLevel cfg trend l
      else none)).length =
    (levels.filter (fun l => staleDca openIds l &&
      decide (l.level + 1 < cfg.max_orders))).length := by
  intro levels
  induction levels with
  | nil => rfl
  | cons l ls ih =>
    rw [List.filterMap_cons, List.filter_cons]
    by_cases h1 : staleDca openIds l = true
    · by_cases h2 : l.level + 1 < cfg.max_orders
      · have h3 : l.level < cfg.max_orders - 1 := by omega
        have h4 : ¬ cfg.max_orders ≤ l.level + 1 := by omega
        have hc : ∃ x, createNextDcaLevel cfg trend l = some x := by
          simp [createNextDcaLevel, h4]
        obtain ⟨x, hc⟩ := hc
        simp [h1, h2, h3, hc, ih]
      · have h3 : ¬ l.level < cfg.max_orders - 1 := by omega
        simp [h1, h2, h3, ih]
    · simp only [Bool.not_eq_true] at h1
      simp [h1, ih]

/-- C8 as amended: during DCA fill inference, each level that transitions to
filled triggers exactly one appended level when its index is below the
final one (`level + 1 < max_orders`) and none otherwise — so the number of
appended levels equals the number of such fills (never more than one per
fill), even though the ladder's level count already equals `max_orders`
after initialization; the appended level carries index `level + 1` and a
trigger one fixed `trigger_percent` step beyond the filled level's trigger
(not the initial progression's offset). -/
theorem c8_amended (cfg : DCAConfig) (port : Port) (trend : String) (now : ℚ)
    (levels : List DCALevel) (orders : List OpenOrder)
    (hoo : port.open_orders = some orders) (hne : orders.isEmpty = false) :
    (dcaCheckFilled cfg port trend now levels).length = levels.length +
      (levels.filter (fun l =>
        staleDca (orders.map (fun o => o.orderId)) l &&
          decide (l.level + 1 < cfg.max_orders))).length ∧
    ∀ l ∈ levels, staleDca (orders.map (fun o => o.orderId)) l = true →
      l.level + 1 < cfg.max_orders →
      { level := l.level + 1
        trigger_price := pyRound 2
          (if trend = "down" then
            l.trigger_price * (1 - cfg.trigger_percent / 100)
           else l.trigger_price * (1 + cfg.trigger_percent / 100))
        quantity := cfg.order_size
        order_id := none
        filled := false
        fill_price := none
        fill_time := none } ∈ dcaCheckFilled cfg port trend now levels := by
  unfold dcaCheckFilled
  rw [hoo]
  simp only [hne, Bool.false_eq_true, if_false]
  constructor
  · rw [List.length_append, List.length_map, dca_appends_length]
  · intro l hl hstale hlt
    refine List.mem_append_right _ (List.mem_filterMap.mpr ⟨l, hl, ?_⟩)
    have h3 : l.level < cfg.max_orders - 1 := by omega
    have h4 : ¬ cfg.max_orders ≤ l.level + 1 := by omega
    simp [hstale, h3, createNextDcaLevel, h4]

/-- Witness for C6's amended theorem at reference price 100, 5 levels. -/
theorem c6_witness :
    (init_grid ⟨50000, 70000, 5, 1, 3⟩ (portP 100) gs0).2 = true ∧
    (init_grid ⟨50000, 70000, 5, 1, 3⟩ (portP 100) gs0).1.grid_levels.length = 5 :=
  ⟨(c6_amended ⟨50000, 70000, 5, 1, 3⟩ 100 gs0 (portP 100) rfl
      (by norm_num) (by norm_num)).1,
   (c6_amended ⟨50000, 70000, 5, 1, 3⟩ 100 gs0 (portP 100) rfl
      (by norm_num) (by norm_num)).2.1⟩

/-- Witness for C7's amended theorem at price 100, 2 percent, 3 levels. -/
theorem c7_witness :
    (init_dca ⟨true, 2, 1, 3⟩ (portP 100) (ds0 "down")).2 = true ∧
    (init_dca ⟨true, 2, 1, 3⟩ (portP 100) (ds0 "down")).1.dca_levels.length = 3 :=
  ⟨(c7_amended ⟨true, 2, 1, 3⟩ 100 (ds0 "down") (portP 100) rfl rfl
      (by norm_num)).1,
   (c7_amended ⟨true, 2, 1, 3⟩ 100 (ds0 "down") (portP 100) rfl rfl
      (by norm_num)).2.1⟩

/-- Witness for C8's amended theorem on a three-level down-trend ladder with
level 0's order gone from the snapshot. -/
theorem c8_witness :
    (dcaCheckFilled ⟨true, 2, 1, 3⟩
        ⟨none, some [⟨"x", "BTCUSDT"⟩], none, none,
         fun _ _ _ _ => none, fun _ => false⟩ "down" 7
        [⟨0, 98, 1, some "a", false, none, none⟩,
         ⟨1, 488/5, 1, none, false, none, none⟩,
         ⟨2, 486/5, 1, none, false, none, none⟩]).length =
      ([⟨0, 98, 1, some "a", false, none, none⟩,
        ⟨1, 488/5, 1, none, false, none, none⟩,
        ⟨2, 486/5, 1, none, false, none, none⟩] : List DCALevel).length +
      (([⟨0, 98, 1, some "a", false, none, none⟩,
         ⟨1, 488/5, 1, none, false, none, none⟩,
         ⟨2, 486/5, 1, none, false, none, none⟩] : List DCALevel).filter
        (fun l => staleDca (([⟨"x", "BTCUSDT"⟩] : List OpenOrder).map
            (fun o => o.orderId)) l &&
          decide (l.level + 1 < (⟨true, 2, 1, 3⟩ : DCAConfig).max_orders))).length :=
  (c8_amended ⟨true, 2, 1, 3⟩
    ⟨none, some [⟨"x", "BTCUSDT"⟩], none, none,
     fun _ _ _ _ => none, fun _ => false⟩ "down" 7
    [⟨0, 98, 1, some "a", false, none, none⟩,
     ⟨1, 488/5, 1, none, false, none, none⟩,
     ⟨2, 486/5, 1, none, false, none, none⟩]
    [⟨"x", "BTCUSDT"⟩] rfl rfl).1

lemma countP_set_le {α : Type} (p : α → Bool) (a : α) (h : p a = false) :
    ∀ (ls : List α) (i : ℕ), (ls.set i a).countP p ≤ ls.countP p := by
  intro ls
  induction ls with
  | nil => intro i; simp
  | cons x xs ih =>
    intro i
    cases i with
    | zero =>
      cases hx : p x <;>
        simp [List.set_cons_zero, List.countP_cons, h, hx]
    | succ n =>
      have := ih n
      cases hx : p x <;>
        simp [List.set_cons_succ, List.countP_cons, h, hx] <;> omega

lemma activeCount_eq_countP (ls : List GridLevel) :
    activeCount ls = ls.countP (fun l => truthyId l.order_id && !l.filled) :=
  (List.countP_eq_length_filter _ _).symm

lemma activeCount_append (a b : List GridLevel) :
    activeCount (a ++ b) = activeCount a + activeCount b := by
  simp [activeCount_eq_countP]

lemma activeCount_set_markFilled (ls : List GridLevel) (i : ℕ) (now : ℚ)
    (l : GridLevel) :
    activeCount (ls.set i (markFilled now l)) ≤ activeCount ls := by
  rw [activeCount_eq_countP, activeCount_eq_countP]
  exact countP_set_le _ _ (by simp [markFilled]) ls i

lemma staleActive_markFilled (openIds : List String) (now : ℚ)
    (l : GridLevel) : staleActive openIds (markFilled now l) = false := by
  unfold staleActive markFilled
  cases l.order_id <;> simp

/-- `_place_opposite_order` only ever appends to the ladder. -/
lemma place_opposite_levels (strat : StrategyConfig) (port : Port)
    (lv : List GridLevel) (tr : List TradeRec) (lp : Option ℚ)
    (fl : GridLevel) :
    ∃ tail, (place_opposite_order strat port lv tr lp fl).levels = lv ++ tail := by
  unfold place_opposite_order
  split_ifs
  all_goals first
    | exact ⟨[], (List.append_nil lv).symm⟩
    | exact ⟨_, rfl⟩

lemma activeCount_singleton_le (x : GridLevel) : activeCount [x] ≤ 1 := by
  unfold activeCount List.filter
  split <;> simp

/-- `_place_opposite_order` either leaves the ladder as it is, or — only
when fewer than 15 levels were active — appends exactly one level. -/
lemma place_opposite_cases (strat : StrategyConfig) (port : Port)
    (lv : List GridLevel) (tr : List TradeRec) (lp : Option ℚ)
    (fl : GridLevel) :
    (place_opposite_order strat port lv tr lp fl).levels = lv ∨
    (activeCount lv < 15 ∧
      ∃ x, (place_opposite_order strat port lv tr lp fl).levels = lv ++ [x]) := by
  unfold place_opposite_order
  split_ifs
  all_goals first
    | (left; rfl)
    | (right; refine ⟨?_, _, rfl⟩; omega)

/-- `_place_opposite_order` keeps the active-level count at or below
`max (count before) 15`: it refuses placement at 15 or more, and a
successful placement raises the count to at most 15. -/
lemma place_opposite_activeCount (strat : StrategyConfig) (port : Port)
    (lv : List GridLevel) (tr : List TradeRec) (lp : Option ℚ)
    (fl : GridLevel) :
    activeCount (place_opposite_order strat port lv tr lp fl).levels ≤
      max (activeCount lv) 15 := by
  rcases place_opposite_cases strat port lv tr lp fl with h | ⟨hlt, x, h⟩
  · rw [h]
    exact le_max_left _ _
  · rw [h, activeCount_append]
    have := activeCount_singleton_le x
    refine le_trans ?_ (le_max_right _ _)
    omega

/-- Processing one level during `update_grid`'s pass: a stale active level
is marked filled, every other level is untouched. -/
def procLevel (openIds : List String) (now : ℚ) (l : GridLevel) : GridLevel :=
  if staleActive openIds l then markFilled now l else l

lemma gridLoop_zero (strat : StrategyConfig) (port : Port) (now : ℚ)
    (openIds : List String) (i : ℕ) (st : GridPass) :
    gridLoop strat port now openIds 0 i st =
      if st.levels.length ≤ i then some st else none := rfl

lemma gridLoop_succ_ge (strat : StrategyConfig) (port : Port) (now : ℚ)
    (openIds : List String) (fuel i : ℕ) (st : GridPass)
    (h : ¬ i < st.levels.length) :
    gridLoop strat port now openIds (fuel + 1) i st = some st := by
  rw [gridLoop]
  simp [h]

lemma gridLoop_succ_stale (strat : StrategyConfig) (port : Port) (now : ℚ)
    (openIds : List String) (fuel i : ℕ) (st : GridPass)
    (h : i < st.levels.length)
    (hs : staleActive openIds (st.levels.get ⟨i, h⟩) = true) :
    gridLoop strat port now openIds (fuel + 1) i st =
      gridLoop strat port now openIds fuel (i + 1)
        ⟨(place_opposite_order strat port
            (st.levels.set i (markFilled now (st.levels.get ⟨i, h⟩)))
            st.trades st.last_price
            (markFilled now (st.levels.get ⟨i, h⟩))).levels,
         (place_opposite_order strat port
            (st.levels.set i (markFilled now (st.levels.get ⟨i, h⟩)))
            st.trades st.last_price
            (markFilled now (st.levels.get ⟨i, h⟩))).trades,
         (place_opposite_order strat port
            (st.levels.set i (markFilled now (st.levels.get ⟨i, h⟩)))
            st.trades st.last_price
            (markFilled now (st.levels.get ⟨i, h⟩))).last_price,
         st.acts ++
           (place_opposite_order strat port
            (st.levels.set i (markFilled now (st.levels.get ⟨i, h⟩)))
            st.trades st.last_price
            (markFilled now (st.levels.get ⟨i, h⟩))).acts⟩ := by
  have hs' : staleActive openIds st.levels[i] = true := by simpa using hs
  rw [gridLoop]
  simp [h, hs']

lemma gridLoop_succ_skip (strat : StrategyConfig) (port : Port) (now : ℚ)
    (openIds : List String) (fuel i : ℕ) (st : GridPass)
    (h : i < st.levels.length)
    (hs : staleActive openIds (st.levels.get ⟨i, h⟩) = false) :
    gridLoop strat port now openIds (fuel + 1) i st =
      gridLoop strat port now openIds fuel (i + 1) st := by
  have hs' : staleActive openIds st.levels[i] = false := by simpa using hs
  rw [gridLoop]
  simp [h, hs']

/-- Levels strictly before the cursor are never touched again. -/
lemma gridLoop_stable (strat : StrategyConfig) (port : Port) (now : ℚ)
    (openIds : List String) :
    ∀ (fuel i : ℕ) (st st' : GridPass),
      gridLoop strat port now openIds fuel i st = some st' →
      ∀ j, j < i → j < st.levels.length → st'.levels[j]? = st.levels[j]? := by
  intro fuel
  induction fuel with
  | zero =>
    intro i st st' hrun j hji hjl
    rw [gridLoop_zero] at hrun
    split at hrun
    · cases hrun
      rfl
    · cases hrun
  | succ fuel ih =>
    intro i st st' hrun j hji hjl
    by_cases h : i < st.levels.length
    · by_cases hs : staleActive openIds (st.levels.get ⟨i, h⟩) = true
      · rw [gridLoop_succ_stale strat port now openIds fuel i st h hs] at hrun
        obtain ⟨tail, htail⟩ := place_opposite_levels strat port
          (st.levels.set i (markFilled now (st.levels.get ⟨i, h⟩)))
          st.trades st.last_price (markFilled now (st.levels.get ⟨i, h⟩))
        have hlen : j < ((st.levels.set i
            (markFilled now (st.levels.get ⟨i, h⟩))) ++ tail).length := by
          rw [List.length_append, List.length_set]
          omega
        have hrd := ih (i + 1) _ st' hrun j (by omega)
          (by simpa only [htail, List.length_append, List.length_set] using hlen)
        rw [hrd]
        simp only [htail]
        rw [List.getElem?_append_left (by rw [List.length_set]; omega)]
        rw [List.getElem?_set_ne (by omega)]
      · rw [gridLoop_succ_skip strat port now openIds fuel i st h
          (by simpa using hs)] at hrun
        exact ih (i + 1) st st' hrun j (by omega) hjl
    · rw [gridLoop_succ_ge strat port now openIds fuel i st h] at hrun
      cases hrun
      rfl

/-- Every level at or past the cursor is processed exactly once: in the
final ladder it appears marked filled when stale, untouched otherwise. -/
lemma gridLoop_process (strat : StrategyConfig) (port : Port) (now : ℚ)
    (openIds : List String) :
    ∀ (fuel i : ℕ) (st st' : GridPass),
      gridLoop strat port now openIds fuel i st = some st' →
      ∀ j l, i ≤ j → st.levels[j]? = some l →
        st'.levels[j]? = some (procLevel openIds now l) := by
  intro fuel
  induction fuel with
  | zero =>
    intro i st st' hrun j l hij hjl
    rw [gridLoop_zero] at hrun
    split at hrun
    · rename_i hle
      obtain ⟨hlt, _⟩ := List.getElem?_eq_some_iff.mp hjl
      omega
    · cases hrun
  | succ fuel ih =>
    intro i st st' hrun j l hij hjl
    have hjlt : j < st.levels.length := (List.getElem?_eq_some_iff.mp hjl).1
    have h : i < st.levels.length := by omega
    by_cases hs : staleActive openIds (st.levels.get ⟨i, h⟩) = true
    · rw [gridLoop_succ_stale strat port now openIds fuel i st h hs] at hrun
      obtain ⟨tail, htail⟩ := place_opposite_levels strat port
        (st.levels.set i (markFilled now (st.levels.get ⟨i, h⟩)))
        st.trades st.last_price (markFilled now (st.levels.get ⟨i, h⟩))
      rcases Nat.eq_or_lt_of_le hij with heq | hlt
      · subst heq
        have hli : l = st.levels.get ⟨i, h⟩ := by
          have h2 := List.getElem?_eq_getElem h
          rw [hjl] at h2
          cases h2
          rfl
        have hs2 : staleActive openIds l = true := by rw [hli]; exact hs
        have hset : ((st.levels.set i
            (markFilled now (st.levels.get ⟨i, h⟩))) ++ tail)[i]? =
            some (markFilled now (st.levels.get ⟨i, h⟩)) := by
          rw [List.getElem?_append_left (by rw [List.length_set]; omega)]
          simp [List.getElem?_set_self, h]
        have hstable := gridLoop_stable strat port now openIds fuel (i + 1)
          _ st' hrun i (by omega)
          (by simp only [htail, List.length_append, List.length_set]
              omega)
        rw [hstable]
        simp only [htail]
        rw [hset, ← hli]
        simp [procLevel, hs2]
      · have hjl2 : ((st.levels.set i
            (markFilled now (st.levels.get ⟨i, h⟩))) ++ tail)[j]? = some l := by
          rw [List.getElem?_append_left (by rw [List.length_set]; omega)]
          rw [List.getElem?_set_ne (by omega)]
          exact hjl
        have := ih (i + 1) _ st' hrun j l (by omega)
          (by simpa only [htail] using hjl2)
        exact this
    · rw [gridLoop_succ_skip strat port now openIds fuel i st h
        (by simpa using hs)] at hrun
      rcases Nat.eq_or_lt_of_le hij with heq | hlt
      · subst heq
        have hli : l = st.levels.get ⟨i, h⟩ := by
          have h2 := List.getElem?_eq_getElem h
          rw [hjl] at h2
          cases h2
          rfl
        have hs2 : staleActive openIds l = false := by
          rw [hli]
          simpa using hs
        have hstable := gridLoop_stable strat port now openIds fuel (i + 1)
          st st' hrun i (by omega) hjlt
        rw [hstable, hjl]
        simp [procLevel, hs2]
      · exact ih (i + 1) st st' hrun j l (by omega) hjl

/-- After a completed pass, no level of the resulting ladder still looks
like a stale active order: everything the snapshot lacks has been marked
filled (including levels appended and revisited during the pass). -/
lemma gridLoop_nostale (strat : StrategyConfig) (port : Port) (now : ℚ)
    (openIds : List String) :
    ∀ (fuel i : ℕ) (st st' : GridPass),
      gridLoop strat port now openIds fuel i st = some st' →
      (∀ j l, j < i → st.levels[j]? = some l →
        staleActive openIds l = false) →
      ∀ l ∈ st'.levels, staleActive openIds l = false := by
  intro fuel
  induction fuel with
  | zero =>
    intro i st st' hrun hpre l hl
    rw [gridLoop_zero] at hrun
    split at hrun
    · rename_i hle
      cases hrun
      obtain ⟨j, hj⟩ := List.mem_iff_getElem?.mp hl
      exact hpre j l (by
        obtain ⟨hlt, _⟩ := List.getElem?_eq_some_iff.mp hj
        omega) hj
    · cases hrun
  | succ fuel ih =>
    intro i st st' hrun hpre l hl
    by_cases h : i < st.levels.length
    · by_cases hs : staleActive openIds (st.levels.get ⟨i, h⟩) = true
      · rw [gridLoop_succ_stale strat port now openIds fuel i st h hs] at hrun
        obtain ⟨tail, htail⟩ := place_opposite_levels strat port
          (st.levels.set i (markFilled now (st.levels.get ⟨i, h⟩)))
          st.trades st.last_price (markFilled now (st.levels.get ⟨i, h⟩))
        refine ih (i + 1) _ st' hrun ?_ l hl
        intro j lj hji hjl
        simp only [htail] at hjl
        have hjlt : j < st.levels.length := by
          by_cases hj2 : j < st.levels.length
          · exact hj2
          · exfalso
            rcases Nat.lt_or_ge j (st.levels.set i
                (markFilled now (st.levels.get ⟨i, h⟩))).length with h3 | h3
            · rw [List.length_set] at h3
              omega
            · omega
        rw [List.getElem?_append_left (by rw [List.length_set]; omega)] at hjl
        by_cases hji2 : j = i
        · subst hji2
          rw [List.getElem?_set_self (by omega)] at hjl
          cases hjl
          exact staleActive_markFilled openIds now _
        · rw [List.getElem?_set_ne (by omega)] at hjl
          exact hpre j lj (by omega) hjl
      · rw [gridLoop_succ_skip strat port now openIds fuel i st h
          (by simpa using hs)] at hrun
        refine ih (i + 1) st st' hrun ?_ l hl
        intro j lj hji hjl
        by_cases hji2 : j = i
        · subst hji2
          have hlj : lj = st.levels.get ⟨j, h⟩ := by
            have h2 := List.getElem?_eq_getElem h
            rw [hjl] at h2
            cases h2
            rfl
          rw [hlj]
          simpa using hs
        · exact hpre j lj (by omega) hjl
    · rw [gridLoop_succ_ge strat port now openIds fuel i st h] at hrun
      cases hrun
      obtain ⟨j, hj⟩ := List.mem_iff_getElem?.mp hl
      obtain ⟨hlt, _⟩ := List.getElem?_eq_some_iff.mp hj
      exact hpre j l (by omega) hj

/-- A pass over a ladder with nothing stale is a pure no-op (given enough
fuel to walk the ladder). -/
lemma gridLoop_noop (strat : StrategyConfig) (port : Port) (now : ℚ)
    (openIds : List String) :
    ∀ (fuel i : ℕ) (st : GridPass),
      (∀ l ∈ st.levels, staleActive openIds l = false) →
      st.levels.length ≤ fuel + i →
      gridLoop strat port now openIds fuel i st = some st := by
  intro fuel
  induction fuel with
  | zero =>
    intro i st hns hfuel
    rw [gridLoop_zero]
    simp only [Nat.zero_add] at hfuel
    simp [hfuel]
  | succ fuel ih =>
    intro i st hns hfuel
    by_cases h : i < st.levels.length
    · have hs : staleActive openIds (st.levels.get ⟨i, h⟩) = false :=
        hns _ (st.levels.get_mem i h)
      rw [gridLoop_succ_skip strat port now openIds fuel i st h hs]
      exact ih (i + 1) st hns (by omega)
    · exact gridLoop_succ_ge strat port now openIds fuel i st h

/-- Through a pass, the active-level count never goes above
`max (count at entry) 15`: marking only removes active levels and each
placement is guarded by the count-below-15 check. -/
lemma gridLoop_count (strat : StrategyConfig) (port : Port) (now : ℚ)
    (openIds : List String) :
    ∀ (fuel i : ℕ) (st st' : GridPass),
      gridLoop strat port now openIds fuel i st = some st' →
      activeCount st'.levels ≤ max (activeCount st.levels) 15 := by
  intro fuel
  induction fuel with
  | zero =>
    intro i st st' hrun
    rw [gridLoop_zero] at hrun
    split at hrun
    · cases hrun
      exact le_max_left _ _
    · cases hrun
  | succ fuel ih =>
    intro i st st' hrun
    by_cases h : i < st.levels.length
    · by_cases hs : staleActive openIds (st.levels.get ⟨i, h⟩) = true
      · rw [gridLoop_succ_stale strat port now openIds fuel i st h hs] at hrun
        have h1 := ih (i + 1) _ st' hrun
        have h2 := place_opposite_activeCount strat port
          (st.levels.set i (markFilled now (st.levels.get ⟨i, h⟩)))
          st.trades st.last_price (markFilled now (st.levels.get ⟨i, h⟩))
        have h3 := activeCount_set_markFilled st.levels i now
          (st.levels.get ⟨i, h⟩)
        simp only [max_le_iff, le_max_iff] at h1 h2 ⊢
        omega
      · rw [gridLoop_succ_skip strat port now openIds fuel i st h
          (by simpa using hs)] at hrun
        exact ih (i + 1) st st' hrun
    · rw [gridLoop_succ_ge strat port now openIds fuel i st h] at hrun
      cases hrun
      exact le_max_left _ _

lemma countP_set_le_succ {α : Type} (p : α → Bool) (a : α) :
    ∀ (ls : List α) (i : ℕ), (ls.set i a).countP p ≤ ls.countP p + 1 := by
  intro ls
  induction ls with
  | nil => intro i; simp
  | cons x xs ih =>
    intro i
    cases i with
    | zero =>
      cases hx : p x <;> cases ha : p a <;>
        simp [List.set_cons_zero, List.countP_cons, hx, ha] <;> omega
    | succ n =>
      have := ih n
      cases hx : p x <;>
        simp [List.set_cons_succ, List.countP_cons, hx] <;> omega

lemma dcaActiveCount_eq_countP (ls : List DCALevel) :
    dcaActiveCount ls = ls.countP (fun l => truthyId l.order_id && !l.filled) :=
  (List.countP_eq_length_filter _ _).symm

/-- `_place_dca_order` refuses outright at 15 or more active levels. -/
lemma place_dca_guard (port : Port) (trend : String) (levels : List DCALevel)
    (tr : List DcaTradeRec) (lp : Option ℚ) (l : DCALevel)
    (h : 15 ≤ dcaActiveCount levels) :
    place_dca_order port trend levels tr lp l = ⟨tr, lp, [], none⟩ := by
  simp [place_dca_order, h]

/-- A truthy order id out of `_place_dca_order` implies the guard saw fewer
than 15 active levels. -/
lemma place_dca_truthy (port : Port) (trend : String) (levels : List DCALevel)
    (tr : List DcaTradeRec) (lp : Option ℚ) (l : DCALevel)
    (h : truthyId (place_dca_order port trend levels tr lp l).order_id = true) :
    dcaActiveCount levels < 15 := by
  by_contra hc
  rw [place_dca_guard port trend levels tr lp l (by omega)] at h
  simp [truthyId] at h

lemma dcaTriggerLoop_ge (port : Port) (trend : String) (cp : ℚ)
    (levels : List DCALevel) (i : ℕ) (tr : List DcaTradeRec)
    (lp : Option ℚ) (acts : List Action) (h : ¬ i < levels.length) :
    dcaTriggerLoop port trend cp levels i tr lp acts =
      (levels, tr, lp, acts) := by
  rw [dcaTriggerLoop]
  simp [h]

lemma dcaTriggerLoop_trigger (port : Port) (trend : String) (cp : ℚ)
    (levels : List DCALevel) (i : ℕ) (tr : List DcaTradeRec)
    (lp : Option ℚ) (acts : List Action) (h : i < levels.length)
    (hc : (!(levels.get ⟨i, h⟩).filled &&
      !truthyId (levels.get ⟨i, h⟩).order_id &&
      should_trigger_dca trend (levels.get ⟨i, h⟩) cp) = true) :
    dcaTriggerLoop port trend cp levels i tr lp acts =
      dcaTriggerLoop port trend cp
        (if truthyId (place_dca_order port trend levels tr lp
              (levels.get ⟨i, h⟩)).order_id then
           levels.set i { levels.get ⟨i, h⟩ with
             order_id := (place_dca_order port trend levels tr lp
               (levels.get ⟨i, h⟩)).order_id }
         else levels)
        (i + 1)
        (place_dca_order port trend levels tr lp (levels.get ⟨i, h⟩)).dca_trades
        (place_dca_order port trend levels tr lp (levels.get ⟨i, h⟩)).last_dca_price
        (acts ++ (place_dca_order port trend levels tr lp
          (levels.get ⟨i, h⟩)).acts) := by
  have hc' : (!levels[i].filled && !truthyId levels[i].order_id &&
      should_trigger_dca trend levels[i] cp) = true := by simpa using hc
  rw [dcaTriggerLoop]
  simp [h, hc']

lemma dcaTriggerLoop_skip (port : Port) (trend : String) (cp : ℚ)
    (levels : List DCALevel) (i : ℕ) (tr : List DcaTradeRec)
    (lp : Option ℚ) (acts : List Action) (h : i < levels.length)
    (hc : (!(levels.get ⟨i, h⟩).filled &&
      !truthyId (levels.get ⟨i, h⟩).order_id &&
      should_trigger_dca trend (levels.get ⟨i, h⟩) cp) = false) :
    dcaTriggerLoop port trend cp levels i tr lp acts =
      dcaTriggerLoop port trend cp levels (i + 1) tr lp acts := by
  have hc' : (!levels[i].filled && !truthyId levels[i].order_id &&
      should_trigger_dca trend levels[i] cp) = false := by simpa using hc
  rw [dcaTriggerLoop]
  simp [h, hc']

/-- Through the trigger loop, the active count never goes above
`max (count at entry) 15`: every placement is guarded. -/
lemma dcaTriggerLoop_count (port : Port) (trend : String) (cp : ℚ) :
    ∀ (n : ℕ) (levels : List DCALevel) (i : ℕ) (tr : List DcaTradeRec)
      (lp : Option ℚ) (acts : List Action), levels.length - i ≤ n →
      dcaActiveCount (dcaTriggerLoop port trend cp levels i tr lp acts).1 ≤
        max (dcaActiveCount levels) 15 := by
  intro n
  induction n with
  | zero =>
    intro levels i tr lp acts hn
    rw [dcaTriggerLoop_ge port trend cp levels i tr lp acts (by omega)]
    exact le_max_left _ _
  | succ n ih =>
    intro levels i tr lp acts hn
    by_cases h : i < levels.length
    · by_cases hc : (!(levels.get ⟨i, h⟩).filled &&
          !truthyId (levels.get ⟨i, h⟩).order_id &&
          should_trigger_dca trend (levels.get ⟨i, h⟩) cp) = true
      · rw [dcaTriggerLoop_trigger port trend cp levels i tr lp acts h hc]
        by_cases ht : truthyId (place_dca_order port trend levels tr lp
            (levels.get ⟨i, h⟩)).order_id = true
        · have hlt := place_dca_truthy port trend levels tr lp
            (levels.get ⟨i, h⟩) ht
          rw [if_pos ht]
          refine le_trans (ih _ (i + 1) _ _ _ ?_) ?_
          · rw [List.length_set]
            omega
          · have hset : ∀ a, dcaActiveCount (levels.set i a) ≤
                dcaActiveCount levels + 1 := by
              intro a
              rw [dcaActiveCount_eq_countP, dcaActiveCount_eq_countP]
              exact countP_set_le_succ _ _ levels i
            refine max_le (le_trans (le_trans (hset _) ?_)
              (le_max_right _ _)) (le_max_right _ _)
            omega
        · rw [if_neg ht]
          exact ih levels (i + 1) _ _ _ (by omega)
      · rw [dcaTriggerLoop_skip port trend cp levels i tr lp acts h
          (by simpa using hc)]
        exact ih levels (i + 1) tr lp acts (by omega)
    · rw [dcaTriggerLoop_ge port trend cp levels i tr lp acts h]
      exact le_max_left _ _

lemma countP_map_le {α : Type} (p : α → Bool) (f : α → α)
    (h : ∀ a, p (f a) = true → p a = true) :
    ∀ ls : List α, (ls.map f).countP p ≤ ls.countP p := by
  intro ls
  rw [List.countP_map]
  exact List.countP_mono_left (fun a _ ha => h a ha)

lemma dcaActiveCount_append (a b : List DCALevel) :
    dcaActiveCount (a ++ b) = dcaActiveCount a + dcaActiveCount b := by
  simp [dcaActiveCount_eq_countP]

lemma staleDca_dcaMarkFilled (openIds : List String) (now : ℚ)
    (l : DCALevel) : staleDca openIds (dcaMarkFilled now l) = false := by
  unfold staleDca dcaMarkFilled
  cases l.order_id <;> simp

/-- The per-level action of `_check_filled_orders` on the existing ladder. -/
def dcaProc (openIds : List String) (now : ℚ) (l : DCALevel) : DCALevel :=
  if staleDca openIds l then dcaMarkFilled now l else l

lemma staleDca_dcaProc (openIds : List String) (now : ℚ) (l : DCALevel) :
    staleDca openIds (dcaProc openIds now l) = false := by
  unfold dcaProc
  by_cases hs : staleDca openIds l = true
  · rw [if_pos hs]
    exact staleDca_dcaMarkFilled openIds now l
  · rw [if_neg hs]
    simpa using hs

lemma dcaProc_idem (openIds : List String) (now1 now2 : ℚ) (l : DCALevel) :
    dcaProc openIds now2 (dcaProc openIds now1 l) = dcaProc openIds now1 l := by
  unfold dcaProc
  by_cases hs : staleDca openIds l = true
  · rw [if_pos hs, if_neg (by simp [staleDca_dcaMarkFilled])]
  · rw [if_neg hs, if_neg hs]

/-- Every level appended by `_check_filled_orders` carries no order id. -/
lemma dca_appends_no_id (cfg : DCAConfig) (trend : String)
    (openIds : List String) (levels : List DCALevel) :
    ∀ x ∈ levels.filterMap (fun l =>
      if staleDca openIds l ∧ l.level < cfg.max_orders - 1 then
        createNextDcaLevel cfg trend l
      else none), x.order_id = none := by
  intro x hx
  obtain ⟨a, _, hfa⟩ := List.mem_filterMap.mp hx
  by_cases hc : staleDca openIds a = true ∧ a.level < cfg.max_orders - 1
  · rw [if_pos hc] at hfa
    unfold createNextDcaLevel at hfa
    by_cases h2 : cfg.max_orders ≤ a.level + 1
    · rw [if_pos h2] at hfa
      cases hfa
    · rw [if_neg h2] at hfa
      cases hfa
      rfl
  · rw [if_neg hc] at hfa
    cases hfa

/-- `_check_filled_orders` never increases the active-level count: marking
removes active levels and appended levels are idle. -/
lemma dcaCheckFilled_count (cfg : DCAConfig) (port : Port) (trend : String)
    (now : ℚ) (levels : List DCALevel) :
    dcaActiveCount (dcaCheckFilled cfg port trend now levels) ≤
      dcaActiveCount levels := by
  unfold dcaCheckFilled
  cases hoo : port.open_orders with
  | none => exact le_rfl
  | some orders =>
    by_cases hne : orders.isEmpty
    · simp [hne]
    · simp only [hne, Bool.false_eq_true, if_false]
      rw [dcaActiveCount_append]
      have h1 : dcaActiveCount (levels.map (fun l =>
          if staleDca (orders.map (fun o => o.orderId)) l then
            dcaMarkFilled now l else l)) ≤ dcaActiveCount levels := by
        rw [dcaActiveCount_eq_countP, dcaActiveCount_eq_countP]
        refine countP_map_le _ _ ?_ levels
        intro a ha
        by_cases hs : staleDca (orders.map (fun o => o.orderId)) a = true
        · rw [if_pos hs] at ha
          unfold dcaMarkFilled truthyId at ha
          revert ha
          cases a.order_id <;> simp
        · rwa [if_neg hs] at ha
      have h2 : dcaActiveCount (levels.filterMap (fun l =>
          if staleDca (orders.map (fun o => o.orderId)) l ∧
              l.level < cfg.max_orders - 1 then
            createNextDcaLevel cfg trend l
          else none)) = 0 := by
        rw [dcaActiveCount_eq_countP, List.countP_eq_zero]
        intro a ha
        have := dca_appends_no_id cfg trend (orders.map (fun o => o.orderId))
          levels a ha
        simp [truthyId, this]
      omega

/-- `_check_filled_orders` is idempotent against an unchanged snapshot:
re-marking changes nothing (appended levels are idle and marked levels stay
filled) and no further level is appended. -/
lemma dcaCheckFilled_idem (cfg : DCAConfig) (port : Port) (trend : String)
    (now1 now2 : ℚ) (levels : List DCALevel) :
    dcaCheckFilled cfg port trend now2
        (dcaCheckFilled cfg port trend now1 levels) =
      dcaCheckFilled cfg port trend now1 levels := by
  unfold dcaCheckFilled
  cases hoo : port.open_orders with
  | none => rfl
  | some orders =>
    by_cases hne : orders.isEmpty
    · simp [hne]
    · simp only [hne, Bool.false_eq_true, if_false]
      generalize orders.map (fun o => o.orderId) = ids
      have happ_noid := dca_appends_no_id cfg trend ids levels
      have hstale_none : ∀ x : DCALevel, x.order_id = none →
          staleDca ids x = false := by
        intro x hx
        unfold staleDca
        rw [hx]
      have hstale_f : ∀ a : DCALevel, staleDca ids
          (if staleDca ids a then dcaMarkFilled now1 a else a) = false := by
        intro a
        by_cases hs : staleDca ids a = true
        · rw [if_pos hs]
          exact staleDca_dcaMarkFilled ids now1 a
        · rw [if_neg hs]
          simpa using hs
      rw [List.map_append, List.map_map, List.filterMap_append]
      have h1 : (levels.map
          ((fun l => if staleDca ids l then dcaMarkFilled now2 l else l) ∘
           (fun l => if staleDca ids l then dcaMarkFilled now1 l else l))) =
          levels.map (fun l =>
            if staleDca ids l then dcaMarkFilled now1 l else l) := by
        refine List.map_congr_left ?_
        intro a _
        simp only [Function.comp]
        rw [if_neg (by rw [hstale_f a]; simp)]
      have h2 : ((levels.filterMap (fun l =>
          if staleDca ids l ∧ l.level < cfg.max_orders - 1 then
            createNextDcaLevel cfg trend l
          else none)).map (fun l =>
            if staleDca ids l then dcaMarkFilled now2 l else l)) =
          levels.filterMap (fun l =>
            if staleDca ids l ∧ l.level < cfg.max_orders - 1 then
              createNextDcaLevel cfg trend l
            else none) := by
        rw [List.map_congr_left (g := id) ?_, List.map_id]
        intro a ha
        rw [if_neg (by rw [hstale_none a (happ_noid a ha)]; simp)]
        rfl
      have h3 : ((levels.map (fun l =>
          if staleDca ids l then dcaMarkFilled now1 l else l)).filterMap
            (fun l => if staleDca ids l ∧ l.level < cfg.max_orders - 1 then
              createNextDcaLevel cfg trend l
            else none)) = [] := by
        rw [List.filterMap_eq_nil_iff]
        intro a ha
        obtain ⟨b, _, rfl⟩ := List.mem_map.mp ha
        rw [if_neg]
        rw [hstale_f b]
        simp
      have h4 : ((levels.filterMap (fun l =>
          if staleDca ids l ∧ l.level < cfg.max_orders - 1 then
            createNextDcaLevel cfg trend l
          else none)).filterMap
            (fun l => if staleDca ids l ∧ l.level < cfg.max_orders - 1 then
              createNextDcaLevel cfg trend l
            else none)) = [] := by
        rw [List.filterMap_eq_nil_iff]
        intro a ha
        rw [if_neg]
        rw [hstale_none a (happ_noid a ha)]
        simp
      rw [h1, h2, h3, h4]
      simp

/-- Unfolding a successful `update_grid` call on an active engine with a
non-empty snapshot into its ladder pass. -/
lemma update_grid_some (strat : StrategyConfig) (port : Port) (now : ℚ)
    (fuel : ℕ) (s : GridState) (r : GridState × List Action)
    (orders : List OpenOrder) (ha : s.active = true)
    (hoo : port.open_orders = some orders) (hne : orders.isEmpty = false)
    (h : update_grid strat port now fuel s = some r) :
    ∃ st, gridLoop strat port now (orders.map (fun o => o.orderId)) fuel 0
        ⟨s.grid_levels, s.trades, s.last_price, []⟩ = some st ∧
      r.1.grid_levels = st.levels ∧ r.1.active = s.active ∧
      r.1.current_price = s.current_price ∧ r.1.trades = st.trades ∧
      r.1.last_price = st.last_price ∧ r.2 = st.acts := by
  unfold update_grid at h
  rw [hoo] at h
  simp only [ha, not_true, if_false, hne, Bool.false_eq_true,
    Bool.not_true] at h
  cases hst : gridLoop strat port now (orders.map (fun o => o.orderId)) fuel 0
      ⟨s.grid_levels, s.trades, s.last_price, []⟩ with
  | none =>
    rw [hst] at h
    cases h
  | some st =>
    rw [hst] at h
    cases h
    exact ⟨st, rfl, rfl, by simp [ha], rfl, rfl, rfl, rfl⟩

/-- `update_grid` is a no-op on a state none of whose levels look stale
against the port's snapshot (given fuel for one walk). -/
lemma update_grid_noop (strat : StrategyConfig) (port : Port) (now : ℚ)
    (fuel : ℕ) (s : GridState)
    (hns : ∀ (orders : List OpenOrder), port.open_orders = some orders →
      orders.isEmpty = false →
      ∀ l ∈ s.grid_levels,
        staleActive (orders.map (fun o => o.orderId)) l = false)
    (hfuel : s.grid_levels.length ≤ fuel) :
    update_grid strat port now fuel s = some (s, []) := by
  obtain ⟨gl, ac, cp, tr, lp⟩ := s
  unfold update_grid
  cases ac with
  | false => simp
  | true =>
    rw [if_neg (by simp)]
    cases hoo : port.open_orders with
    | none => rfl
    | some orders =>
      by_cases hne : orders.isEmpty
      · simp [hne]
      · simp only [hne, Bool.false_eq_true, if_false]
        rw [gridLoop_noop strat port now (orders.map (fun o => o.orderId))
          fuel 0 ⟨gl, tr, lp, []⟩
          (hns orders hoo (by simpa using hne)) (by simpa using hfuel)]

/-- Any completed `update_grid` call keeps the active-level count at or
below `max (count before) 15`. -/
lemma update_grid_count (strat : StrategyConfig) (port : Port) (now : ℚ)
    (fuel : ℕ) (s : GridState) (r : GridState × List Action)
    (h : update_grid strat port now fuel s = some r) :
    activeCount r.1.grid_levels ≤ max (activeCount s.grid_levels) 15 := by
  by_cases ha : s.active = true
  · cases hoo : port.open_orders with
    | none =>
      unfold update_grid at h
      rw [hoo] at h
      simp only [ha, not_true, Bool.not_true, if_false] at h
      cases h
      exact le_max_left _ _
    | some orders =>
      by_cases hne : orders.isEmpty
      · unfold update_grid at h
        rw [hoo] at h
        simp only [ha, not_true, Bool.not_true, if_false, hne, if_true] at h
        cases h
        exact le_max_left _ _
      · obtain ⟨st, hst, hr1, _, _, _, _, _⟩ := update_grid_some strat port
          now fuel s r orders ha hoo (by simpa using hne) h
        rw [hr1]
        exact gridLoop_count strat port now _ fuel 0 _ st hst
  · unfold update_grid at h
    rw [if_pos (by simp [ha])] at h
    cases h
    exact le_max_left _ _

/-- Any `update_dca` call keeps the active-level count at or below
`max (count before) 15`. -/
lemma update_dca_count (cfg : DCAConfig) (port : Port) (now : ℚ)
    (s : DCAState) :
    dcaActiveCount (update_dca cfg port now s).1.dca_levels ≤
      max (dcaActiveCount s.dca_levels) 15 := by
  unfold update_dca
  split
  · exact le_max_left _ _
  · split
    · exact le_max_left _ _
    · split
      · exact le_max_left _ _
      · refine le_trans (dcaCheckFilled_count cfg port s.trend_direction now _) ?_
        exact dcaTriggerLoop_count port s.trend_direction _
          (s.dca_levels.length) s.dca_levels 0 s.dca_trades s.last_dca_price
          [] (by omega)

/-- A grid state holding one believed-active order "a", used to exhibit the
empty-snapshot behavior. -/
def sC1 : GridState :=
  ⟨[⟨0, 97, Side.Buy, 1, some "a", false, none, none⟩], true, 100, [], none⟩

/-- C1 counterexample: with an active level whose order id "a" is absent
from the snapshot, a reconcile pass against an **empty** open-order
snapshot marks nothing — `update_grid` returns the state unchanged
(`if not open_orders: return True`), leaving the level unfilled where the
claim demands it be marked filled. -/
theorem c1_counterexample :
    update_grid ⟨70, 7/10⟩
        ⟨some 100, some [], none, none, fun _ _ _ _ => none, fun _ => true⟩
        7 9 sC1 = some (sC1, []) ∧
    sC1.grid_levels.map (fun l => l.filled) = [false] := by
  constructor
  · simp [update_grid, sC1]
  · rfl

/-- C1 as amended: fill inference holds for every **non-empty** fetched
snapshot (an empty or unavailable snapshot skips reconciliation entirely).
On an active engine, a completed pass maps each pre-existing level to its
processed form — marked filled with fill time = reconciliation time exactly
when its order id is truthy, absent from the snapshot and the level was not
yet filled — and afterwards no level of the ladder (appended ones included)
still holds an unfilled order id absent from the snapshot; the DCA engine's
`_check_filled_orders` does the same on its ladder. -/
theorem c1_amended :
    (∀ (strat : StrategyConfig) (port : Port) (now : ℚ) (fuel : ℕ)
       (s : GridState) (r : GridState × List Action)
       (orders : List OpenOrder),
       s.active = true → port.open_orders = some orders →
       orders.isEmpty = false →
       update_grid strat port now fuel s = some r →
       (∀ (j : ℕ) (l : GridLevel), s.grid_levels[j]? = some l →
          r.1.grid_levels[j]? =
            some (procLevel (orders.map (fun o => o.orderId)) now l)) ∧
       ∀ l ∈ r.1.grid_levels,
         staleActive (orders.map (fun o => o.orderId)) l = false) ∧
    (∀ (cfg : DCAConfig) (port : Port) (trend : String) (now : ℚ)
       (levels : List DCALevel) (orders : List OpenOrder),
       port.open_orders = some orders → orders.isEmpty = false →
       (∀ (j : ℕ) (l : DCALevel), levels[j]? = some l →
          (dcaCheckFilled cfg port trend now levels)[j]? =
            some (dcaProc (orders.map (fun o => o.orderId)) now l)) ∧
       ∀ l ∈ dcaCheckFilled cfg port trend now levels,
         staleDca (orders.map (fun o => o.orderId)) l = false) := by
  constructor
  · intro strat port now fuel s r orders ha hoo hne h
    obtain ⟨st, hst, hlev, _, _, _, _, _⟩ :=
      update_grid_some strat port now fuel s r orders ha hoo hne h
    constructor
    · intro j l hjl
      rw [hlev]
      exact gridLoop_process strat port now _ fuel 0 _ st hst j l
        (Nat.zero_le j) hjl
    · intro l hl
      rw [hlev] at hl
      exact gridLoop_nostale strat port now _ fuel 0 _ st hst
        (by intro j lj hj0 _; omega) l hl
  · intro cfg port trend now levels orders hoo hne
    constructor
    · intro j l hjl
      unfold dcaCheckFilled
      rw [hoo]
      simp only [hne, Bool.false_eq_true, if_false]
      have hjlt : j < levels.length := (List.getElem?_eq_some_iff.mp hjl).1
      rw [List.getElem?_append_left (by rw [List.length_map]; omega)]
      rw [List.getElem?_map, hjl]
      rfl
    · intro l hl
      unfold dcaCheckFilled at hl
      rw [hoo] at hl
      simp only [hne, Bool.false_eq_true, if_false] at hl
      rcases List.mem_append.mp hl with hm | hm
      · obtain ⟨b, _, rfl⟩ := List.mem_map.mp hm
        exact staleDca_dcaProc (orders.map (fun o => o.orderId)) now b
      · have hid := dca_appends_no_id cfg trend
          (orders.map (fun o => o.orderId)) levels l hm
        unfold staleDca
        rw [hid]

/-- A one-level idle grid ladder used as the C1 witness state. -/
def sC1w : GridState :=
  ⟨[⟨0, 97, Side.Buy, 1, none, false, none, none⟩], true, 100, [], none⟩

/-- A port whose snapshot holds one unrelated order "x". -/
def portC1w : Port :=
  ⟨some 100, some [⟨"x", "BTCUSDT"⟩], none, none,
   fun _ _ _ _ => none, fun _ => true⟩

/-- Witness for C1's amended theorem: an active engine, a non-empty
snapshot and a completed pass on an idle level. -/
theorem c1_witness :
    sC1w.grid_levels[0]? = some (procLevel ["x"] 7
      ⟨0, 97, Side.Buy, 1, none, false, none, none⟩) ∧
    (dcaCheckFilled ⟨true, 2, 1, 3⟩ portC1w "down" 7
      [⟨0, 98, 1, none, false, none, none⟩])[0]? =
      some (dcaProc ["x"] 7 ⟨0, 98, 1, none, false, none, none⟩) := by
  have hrun : update_grid ⟨70, 7/10⟩ portC1w 9 1 sC1w = some (sC1w, []) := by
    refine update_grid_noop ⟨70, 7/10⟩ portC1w 9 1 sC1w ?_ (by simp [sC1w])
    intro orders hoo hne l hl
    have horders : orders = [⟨"x", "BTCUSDT"⟩] := by
      have : (portC1w.open_orders = some orders) := hoo
      simp [portC1w] at this
      exact this.symm
    subst horders
    simp only [sC1w, List.mem_singleton] at hl
    subst hl
    rfl
  have h := (c1_amended.1 ⟨70, 7/10⟩ portC1w 9 1 sC1w (sC1w, [])
    [⟨"x", "BTCUSDT"⟩] rfl rfl rfl hrun).1 0
    ⟨0, 97, Side.Buy, 1, none, false, none, none⟩ rfl
  have h2 := (c1_amended.2 ⟨true, 2, 1, 3⟩ portC1w "down" 7
    [⟨0, 98, 1, none, false, none, none⟩] [⟨"x", "BTCUSDT"⟩] rfl rfl).1 0
    ⟨0, 98, 1, none, false, none, none⟩ rfl
  exact ⟨h, h2⟩

/-- With an exchange that accepts every placement, `start_grid`'s
placement loop makes every unfilled level active: the active count grows by
exactly the number of levels walked. -/
lemma startPlaceStep_fold_count (port : Port)
    (hplace : ∀ sd ot q p, truthyId (port.place sd ot q p) = true) :
    ∀ (gl : List GridLevel) (acc : List GridLevel × List Action),
      (∀ l ∈ gl, l.filled = false) →
      activeCount (gl.foldl (startPlaceStep port) acc).1 =
        activeCount acc.1 + gl.length := by
  intro gl
  induction gl with
  | nil => intro acc _; simp
  | cons l ls ih =>
    intro acc hunf
    have hlf : l.filled = false := hunf l (List.mem_cons_self l ls)
    have hresp := hplace l.side OrderType.Limit l.quantity (some l.price)
    rw [List.foldl_cons]
    rw [ih _ (fun x hx => hunf x (List.mem_cons_of_mem l hx))]
    unfold startPlaceStep startResp
    rw [if_neg (by simp [hlf])]
    rw [if_pos hresp]
    simp only [activeCount_append]
    have hone : activeCount [{ l with
        order_id := port.place l.side OrderType.Limit l.quantity
          (some l.price) }] = 1 := by
      unfold activeCount
      simp [hresp, hlf]
    rw [hone]
    simp [List.length_cons]
    omega

/-- A 16-level idle ladder (more than the 15-order cap). -/
def gl16 : List GridLevel :=
  (List.range 16).map (fun (i : ℕ) =>
    { level := i, price := 100, side := Side.Buy, quantity := 1 })

/-- A grid engine holding `gl16` before `start_grid`. -/
def sG16 : GridState := ⟨gl16, false, 0, [], none⟩

/-- A port that accepts every placement with order id "id1". -/
def port16 : Port :=
  ⟨some 100, none, none, none, fun _ _ _ _ => some "id1", fun _ => true⟩

/-- C2 counterexample: `start_grid` performs no active-order-count check —
starting a 16-level ladder against an accepting exchange places all 16
orders, so the ladder's active-level count reaches 16 > 15. -/
theorem c2_counterexample :
    activeCount (start_grid ⟨0, 0, 16, 1, 3⟩ ⟨"BTCUSDT", 10, 1000⟩
      port16 sG16).1.grid_levels = 16 ∧ 15 < 16 := by
  constructor
  · have hfold := startPlaceStep_fold_count port16
      (by intro sd ot q p; rfl) gl16 ([], [])
      (by intro l hl
          obtain ⟨i, _, rfl⟩ := List.mem_map.mp hl
          rfl)
    unfold start_grid
    rw [if_neg (by simp [sG16, gl16])]
    simp only []
    rw [if_neg (by simp)]
    simpa [sG16, gl16, activeCount] using hfold
  · omega

/-- C2 as amended: the order-count guard exists only on the reactive
placements — `_place_opposite_order` and `_place_dca_order` refuse outright
at 15 or more active levels, and consequently neither grid reconciliation
nor DCA reconciliation ever raises an engine's active-level count above
`max (count before) 15` — but `start_grid`'s initial placement is
unguarded, so a ladder configured with more than 15 levels exceeds the cap
at start (see the counterexample). -/
theorem c2_amended :
    (∀ (strat : StrategyConfig) (port : Port) (now : ℚ) (fuel : ℕ)
       (s : GridState) (r : GridState × List Action),
       update_grid strat port now fuel s = some r →
       activeCount r.1.grid_levels ≤ max (activeCount s.grid_levels) 15) ∧
    (∀ (cfg : DCAConfig) (port : Port) (now : ℚ) (s : DCAState),
       dcaActiveCount (update_dca cfg port now s).1.dca_levels ≤
         max (dcaActiveCount s.dca_levels) 15) ∧
    (∀ (strat : StrategyConfig) (port : Port) (lv : List GridLevel)
       (tr : List TradeRec) (lp : Option ℚ) (fl : GridLevel),
       15 ≤ activeCount lv →
       place_opposite_order strat port lv tr lp fl =
         ⟨lv, tr, lp, [], false⟩) ∧
    (∀ (port : Port) (trend : String) (lv : List DCALevel)
       (tr : List DcaTradeRec) (lp : Option ℚ) (l : DCALevel),
       15 ≤ dcaActiveCount lv →
       place_dca_order port trend lv tr lp l = ⟨tr, lp, [], none⟩) := by
  refine ⟨update_grid_count, update_dca_count, ?_, place_dca_guard⟩
  intro strat port lv tr lp fl h
  simp [place_opposite_order, h]

/-- Witness for C2's amended theorem: a reconcile pass on an inactive
engine and a guarded refusal at an over-full ladder. -/
theorem c2_witness :
    activeCount (gs0, ([] : List Action)).1.grid_levels ≤
      max (activeCount gs0.grid_levels) 15 ∧
    place_dca_order (portP 100) "down"
        ((List.range 15).map (fun (i : ℕ) =>
          ⟨i, 98, 1, some "a", false, none, none⟩)) [] none
        ⟨0, 98, 1, none, false, none, none⟩ = ⟨[], none, [], none⟩ := by
  constructor
  · exact c2_amended.1 ⟨70, 7/10⟩ (portP 100) 0 0 gs0 (gs0, [])
      (by simp [update_grid, gs0])
  · refine c2_amended.2.2.2 (portP 100) "down" _ [] none
      ⟨0, 98, 1, none, false, none, none⟩ ?_
    have : ((List.range 15).map (fun (i : ℕ) =>
        (⟨i, 98, 1, some "a", false, none, none⟩ : DCALevel))).length = 15 := by
      simp
    unfold dcaActiveCount
    have hall : ∀ l ∈ (List.range 15).map (fun (i : ℕ) =>
        (⟨i, 98, 1, some "a", false, none, none⟩ : DCALevel)),
        (truthyId l.order_id && !l.filled) = true := by
      intro l hl
      obtain ⟨i, _, rfl⟩ := List.mem_map.mp hl
      rfl
    rw [List.filter_eq_self.mpr hall]
    simp

/-- C9 as amended: against an unchanged port, a second `update_grid` call
is a strict no-op — every level the first call's pass left behind (the
cascade marks even the levels it appends, since their fresh ids are absent
from the stale snapshot) fails the fill-inference test, so nothing is
marked, placed or appended the second time; likewise DCA fill inference
(`_check_filled_orders`) is idempotent.  Full DCA reconcile is **not**
idempotent (see the counterexample): a trigger placement in the first call
leaves an order id the unchanged snapshot lacks, so the second call marks
it filled and appends the next level. -/
theorem c9_amended :
    (∀ (strat : StrategyConfig) (port : Port) (now1 now2 : ℚ)
       (fuel1 fuel2 : ℕ) (s : GridState) (r : GridState × List Action),
       update_grid strat port now1 fuel1 s = some r →
       r.1.grid_levels.length ≤ fuel2 →
       update_grid strat port now2 fuel2 r.1 = some (r.1, [])) ∧
    (∀ (cfg : DCAConfig) (port : Port) (trend : String) (now1 now2 : ℚ)
       (levels : List DCALevel),
       dcaCheckFilled cfg port trend now2
           (dcaCheckFilled cfg port trend now1 levels) =
         dcaCheckFilled cfg port trend now1 levels) := by
  refine ⟨?_, dcaCheckFilled_idem⟩
  intro strat port now1 now2 fuel1 fuel2 s r h hfuel
  by_cases ha : s.active = true
  · cases hoo : port.open_orders with
    | none =>
      unfold update_grid at h
      rw [hoo] at h
      simp only [ha, not_true, Bool.not_true, if_false] at h
      cases h
      unfold update_grid
      rw [hoo]
      simp [ha]
    | some orders =>
      by_cases hne : orders.isEmpty
      · unfold update_grid at h
        rw [hoo] at h
        simp only [ha, not_true, Bool.not_true, if_false, hne, if_true] at h
        cases h
        unfold update_grid
        rw [hoo]
        simp [ha, hne]
      · obtain ⟨st, hst, hlev, _, _, _, _, _⟩ := update_grid_some strat port
          now1 fuel1 s r orders ha hoo (by simpa using hne) h
        have hns := gridLoop_nostale strat port now1
          (orders.map (fun o => o.orderId)) fuel1 0 _ st hst
          (by intro j lj hj0 _; omega)
        refine update_grid_noop strat port now2 fuel2 r.1 ?_ hfuel
        intro orders' hoo' hne' l hl
        rw [hoo] at hoo'
        cases hoo'
        rw [hlev] at hl
        exact hns l hl
  · unfold update_grid at h
    rw [if_pos (by simp [ha])] at h
    cases h
    unfold update_grid
    rw [if_pos (by simp [ha])]

/-- Witness for C9's amended theorem on a completed one-level pass. -/
theorem c9_witness :
    update_grid ⟨70, 7/10⟩ portC1w 2 1 sC1w = some (sC1w, []) := by
  have hrun : update_grid ⟨70, 7/10⟩ portC1w 1 1 sC1w = some (sC1w, []) := by
    refine update_grid_noop ⟨70, 7/10⟩ portC1w 1 1 sC1w ?_ (by simp [sC1w])
    intro orders hoo hne l hl
    have horders : orders = [⟨"x", "BTCUSDT"⟩] := by
      have h2 : (portC1w.open_orders = some orders) := hoo
      simp [portC1w] at h2
      exact h2.symm
    subst horders
    simp only [sC1w, List.mem_singleton] at hl
    subst hl
    rfl
  exact c9_amended.1 ⟨70, 7/10⟩ portC1w 1 2 1 1 sC1w (sC1w, []) hrun
    (by simp [sC1w])

/-- Two-level down-trend DCA configuration for the C9 counterexample. -/
def cfg9 : DCAConfig := ⟨true, 2, 1, 2⟩

/-- A frozen port: price 95, one unrelated open order "x", placements
answered with id "m1". -/
def port9 : Port :=
  ⟨some 95, some [⟨"x", "BTCUSDT"⟩], none, none,
   fun _ _ _ _ => some "m1", fun _ => true⟩

/-- A DCA engine holding one active level whose order "m0" has left the
snapshot. -/
def s9 : DCAState :=
  ⟨[⟨0, 98, 1, some "m0", false, none, none⟩], true, 100, 100, "down", [], none⟩

/-- C9 counterexample: with the port frozen, the first `update_dca` call
marks level 0 filled and appends an idle level (placing nothing); the
second call, against the same snapshot, triggers that appended level,
places a market order and marks it filled — an additional state change and
an additional order, refuting reconcile idempotence for the DCA engine. -/
theorem c9_counterexample :
    (update_dca cfg9 port9 1 s9).1.dca_levels.map (fun l => l.filled) =
      [true, false] ∧
    (update_dca cfg9 port9 1 s9).2 = [] ∧
    (update_dca cfg9 port9 2
        (update_dca cfg9 port9 1 s9).1).1.dca_levels.map (fun l => l.filled) =
      [true, true] ∧
    (update_dca cfg9 port9 2 (update_dca cfg9 port9 1 s9).1).2 =
      [Action.placeOrder Side.Buy OrderType.Market 1 none (some "m1")] := by
  have htrig1 : dcaTriggerLoop port9 "down" 95
      [⟨0, 98, 1, some "m0", false, none, none⟩] 0 [] none [] =
      ([⟨0, 98, 1, some "m0", false, none, none⟩], [], none, []) := by
    rw [dcaTriggerLoop_skip port9 "down" 95 _ 0 [] none [] (by simp)
      (by simp [truthyId])]
    exact dcaTriggerLoop_ge port9 "down" 95 _ 1 [] none [] (by simp)
  have hchk1 : dcaCheckFilled cfg9 port9 "down" 1
      [⟨0, 98, 1, some "m0", false, none, none⟩] =
      [⟨0, 98, 1, some "m0", true, none, some 1⟩,
       ⟨1, 2401/25, 1, none, false, none, none⟩] := by
    simp +decide [dcaCheckFilled, cfg9, port9, staleDca, dcaMarkFilled,
      createNextDcaLevel]
    norm_num [pyRound, roundHalfEven, -Int.self_sub_floor]
  have hcall1 : update_dca cfg9 port9 1 s9 =
      (⟨[⟨0, 98, 1, some "m0", true, none, some 1⟩,
         ⟨1, 2401/25, 1, none, false, none, none⟩],
        true, 95, 100, "down", [], none⟩, []) := by
    have hp1 : port9.current_price = some 95 := rfl
    have hce : cfg9.enabled = true := rfl
    simp only [update_dca, s9, hp1, hce]
    norm_num [htrig1, hchk1]
  have hplace2 : place_dca_order port9 "down"
      [⟨0, 98, 1, some "m0", true, none, some 1⟩,
       ⟨1, 2401/25, 1, none, false, none, none⟩] [] none
      ⟨1, 2401/25, 1, none, false, none, none⟩ =
      ⟨[⟨Side.Buy, some 95, 1, "m1"⟩], some 95,
       [Action.placeOrder Side.Buy OrderType.Market 1 none (some "m1")],
       some "m1"⟩ := by
    norm_num [place_dca_order, port9, dcaResp, dcaSide, volSkip,
      truthyPrice, truthyId, dcaActiveCount]
    simp
  have htrig2 : dcaTriggerLoop port9 "down" 95
      [⟨0, 98, 1, some "m0", true, none, some 1⟩,
       ⟨1, 2401/25, 1, none, false, none, none⟩] 0 [] none [] =
      ([⟨0, 98, 1, some "m0", true, none, some 1⟩,
        ⟨1, 2401/25, 1, some "m1", false, none, none⟩],
       [⟨Side.Buy, some 95, 1, "m1"⟩], some 95,
       [Action.placeOrder Side.Buy OrderType.Market 1 none (some "m1")]) := by
    rw [dcaTriggerLoop_skip port9 "down" 95 _ 0 [] none [] (by simp)
      (by simp [truthyId])]
    rw [dcaTriggerLoop_trigger port9 "down" 95 _ 1 [] none [] (by simp)
      (by simp [truthyId, should_trigger_dca]
          norm_num)]
    simp only [List.get_eq_getElem, List.getElem_cons_succ,
      List.getElem_cons_zero]
    rw [hplace2]
    rw [if_pos (by simp [truthyId])]
    simp only [List.set_cons_succ, List.set_cons_zero]
    rw [dcaTriggerLoop_ge port9 "down" 95 _ 2 _ _ _ (by simp)]
    simp
  have hchk2 : dcaCheckFilled cfg9 port9 "down" 2
      [⟨0, 98, 1, some "m0", true, none, some 1⟩,
       ⟨1, 2401/25, 1, some "m1", false, none, none⟩] =
      [⟨0, 98, 1, some "m0", true, none, some 1⟩,
       ⟨1, 2401/25, 1, some "m1", true, none, some 2⟩] := by
    simp +decide [dcaCheckFilled, cfg9, port9, staleDca, dcaMarkFilled,
      createNextDcaLevel]
  have hcall2 : update_dca cfg9 port9 2
      (⟨[⟨0, 98, 1, some "m0", true, none, some 1⟩,
         ⟨1, 2401/25, 1, none, false, none, none⟩],
        true, 95, 100, "down", [], none⟩ : DCAState) =
      (⟨[⟨0, 98, 1, some "m0", true, none, some 1⟩,
         ⟨1, 2401/25, 1, some "m1", true, none, some 2⟩],
        true, 95, 100, "down", [⟨Side.Buy, some 95, 1, "m1"⟩], some 95⟩,
       [Action.placeOrder Side.Buy OrderType.Market 1 none (some "m1")]) := by
    have hp1 : port9.current_price = some 95 := rfl
    have hce : cfg9.enabled = true := rfl
    simp only [update_dca, hp1, hce]
    norm_num [htrig2, hchk2]
  rw [hcall1]
  rw [hcall2]
  refine ⟨by simp, rfl, by simp, rfl⟩

/-- Every event produced by tagging a list of actions with a phase carries
that phase's rank. -/
lemma loopEv_rank_act (ph : Phase) (acts : List Action) :
    ∀ e ∈ acts.map (LoopEv.act ph), LoopEv.rank e = Phase.rank ph := by
  intro e he
  rcases List.mem_map.mp he with ⟨a, _, rfl⟩
  rfl

/-- A list of events of one constant rank is rank-sorted. -/
lemma pairwise_const_rank (l : List LoopEv) (k : ℕ)
    (h : ∀ e ∈ l, LoopEv.rank e = k) :
    l.Pairwise (fun a b => LoopEv.rank a ≤ LoopEv.rank b) := by
  induction l with
  | nil => exact List.Pairwise.nil
  | cons x xs ih =>
    refine List.Pairwise.cons ?_ (ih ?_)
    · intro b hb
      rw [h x (List.mem_cons_self x xs), h b (List.mem_cons_of_mem x hb)]
    · intro e he
      exact h e (List.mem_cons_of_mem x he)

/-- Concatenating the four phase segments in cycle order yields a
rank-sorted event list. -/
lemma pairwise_rank_four (A B C D : List LoopEv)
    (hA : ∀ e ∈ A, LoopEv.rank e = 0) (hB : ∀ e ∈ B, LoopEv.rank e = 1)
    (hC : ∀ e ∈ C, LoopEv.rank e = 2) (hD : ∀ e ∈ D, LoopEv.rank e = 3) :
    (A ++ (B ++ (C ++ D))).Pairwise
      (fun a b => LoopEv.rank a ≤ LoopEv.rank b) := by
  refine List.pairwise_append.mpr ⟨pairwise_const_rank A 0 hA, ?_, ?_⟩
  · refine List.pairwise_append.mpr ⟨pairwise_const_rank B 1 hB, ?_, ?_⟩
    · refine List.pairwise_append.mpr
        ⟨pairwise_const_rank C 2 hC, pairwise_const_rank D 3 hD, ?_⟩
      intro a ha b hb
      rw [hC a ha, hD b hb]
      omega
    · intro a ha b hb
      rw [hB a ha]
      rcases List.mem_append.mp hb with hb | hb
      · rw [hC b hb]; omega
      · rw [hD b hb]; omega
  · intro a ha b hb
    rw [hA a ha]
    exact Nat.zero_le _

/-- Shape of one `botIteration` trace: it opens with the risk verdict, is
rank-sorted, and a False verdict confines it to rank-0 events, clears the
continue flag and clears `running`. -/
lemma botIteration_cases {cfg : BotCfg} {port : Port} {now : ℚ} {gfuel : ℕ}
    {s s' : BotState} {evs : List LoopEv} {cont : Bool}
    (h : botIteration cfg port now gfuel s = some (s', evs, cont)) :
    (∃ b, evs.head? = some (LoopEv.riskCheck b)) ∧
    evs.Pairwise (fun a b => LoopEv.rank a ≤ LoopEv.rank b) ∧
    (LoopEv.riskCheck false ∈ evs →
      (∀ e ∈ evs, LoopEv.rank e = 0) ∧ cont = false ∧
      s'.running = false) := by
  rcases hrc : check_risk_limits cfg.risk cfg.trading port true s.risk with
    ⟨rs, verdict, racts⟩
  cases verdict with
  | false =>
    simp only [botIteration, hrc] at h
    simp at h
    obtain ⟨h1, h2, h3⟩ := h
    have hA : ∀ e ∈ LoopEv.riskCheck false ::
        racts.map (LoopEv.act Phase.risk), LoopEv.rank e = 0 := by
      intro e he
      rcases List.mem_cons.mp he with rfl | he
      · rfl
      · exact loopEv_rank_act Phase.risk racts e he
    refine ⟨⟨false, by rw [← h2]; simp⟩, ?_, ?_⟩
    · rw [← h2]
      exact pairwise_const_rank _ 0 hA
    · intro _
      refine ⟨by rw [← h2]; exact hA, by rw [← h3], by rw [← h1]⟩
  | true =>
    simp only [botIteration, hrc] at h
    simp at h
    rcases hg : update_grid cfg.strategy port now gfuel s.grid with _ | ⟨g, gacts⟩
    · rw [hg] at h
      simp at h
    · rw [hg] at h
      simp at h
      obtain ⟨h1, h2, h3⟩ := h
      have hA : ∀ e ∈ LoopEv.riskCheck true ::
          racts.map (LoopEv.act Phase.risk), LoopEv.rank e = 0 := by
        intro e he
        rcases List.mem_cons.mp he with rfl | he
        · rfl
        · exact loopEv_rank_act Phase.risk racts e he
      have hD : ∀ e ∈ [LoopEv.statusLog], LoopEv.rank e = 3 := by
        intro e he
        rcases List.mem_cons.mp he with rfl | he
        · rfl
        · cases he
      have hp := pairwise_rank_four
        (LoopEv.riskCheck true :: racts.map (LoopEv.act Phase.risk))
        (gacts.map (LoopEv.act Phase.grid))
        ((update_dca cfg.dca port now s.dca).2.map (LoopEv.act Phase.dca))
        [LoopEv.statusLog] hA (loopEv_rank_act Phase.grid gacts)
        (loopEv_rank_act Phase.dca _) hD
      refine ⟨⟨true, by rw [← h2]; simp⟩, ?_, ?_⟩
      · rw [← h2]
        simpa using hp
      · intro hm
        rw [← h2] at hm
        simp [List.mem_append, List.mem_map, List.mem_cons] at hm

/-- `_main_loop` on a tick while the bot is stopped: no iteration runs. -/
lemma mainLoop_not_running {cfg : BotCfg} {gfuel : ℕ} {port : Port} {now : ℚ}
    {rest : List (Port × ℚ)} {s : BotState} (hr : s.running = false) :
    mainLoop cfg gfuel ((port, now) :: rest) s = some (s, []) := by
  rw [mainLoop]
  simp [hr]

/-- `_main_loop` on a tick whose grid pass exhausts its fuel. -/
lemma mainLoop_bot_none {cfg : BotCfg} {gfuel : ℕ} {port : Port} {now : ℚ}
    {rest : List (Port × ℚ)} {s : BotState} (hr : s.running = true)
    (hb : botIteration cfg port now gfuel s = none) :
    mainLoop cfg gfuel ((port, now) :: rest) s = none := by
  rw [mainLoop]
  simp [hr, hb]

/-- `_main_loop` on a tick whose iteration clears the continue flag: the
loop stops after recording that single trace. -/
lemma mainLoop_step_stop {cfg : BotCfg} {gfuel : ℕ} {port : Port} {now : ℚ}
    {rest : List (Port × ℚ)} {s s1 : BotState} {evs : List LoopEv}
    (hr : s.running = true)
    (hb : botIteration cfg port now gfuel s = some (s1, evs, false)) :
    mainLoop cfg gfuel ((port, now) :: rest) s = some (s1, [evs]) := by
  rw [mainLoop]
  simp [hr, hb]

/-- `_main_loop` on a tick whose iteration keeps running, when the rest of
the run fails on fuel. -/
lemma mainLoop_step_cont_none {cfg : BotCfg} {gfuel : ℕ} {port : Port}
    {now : ℚ} {rest : List (Port × ℚ)} {s s1 : BotState} {evs : List LoopEv}
    (hr : s.running = true)
    (hb : botIteration cfg port now gfuel s = some (s1, evs, true))
    (hm : mainLoop cfg gfuel rest s1 = none) :
    mainLoop cfg gfuel ((port, now) :: rest) s = none := by
  rw [mainLoop]
  simp [hr, hb, hm]

/-- `_main_loop` on a tick whose iteration keeps running: its trace is
prepended to the rest of the run. -/
lemma mainLoop_step_cont {cfg : BotCfg} {gfuel : ℕ} {port : Port} {now : ℚ}
    {rest : List (Port × ℚ)} {s s1 sf : BotState} {evs : List LoopEv}
    {its : List (List LoopEv)} (hr : s.running = true)
    (hb : botIteration cfg port now gfuel s = some (s1, evs, true))
    (hm : mainLoop cfg gfuel rest s1 = some (sf, its)) :
    mainLoop cfg gfuel ((port, now) :: rest) s = some (sf, evs :: its) := by
  rw [mainLoop]
  simp [hr, hb, hm]

/-- C5: in every completed `_main_loop` run, each iteration's observable
trace opens with the risk-limit verdict and runs its phases in the strict
order risk check, grid reconciliation, DCA reconciliation, status
observation (event ranks are sorted); and whenever the risk check signals
False, that iteration performs only risk-phase events (no grid or DCA
reconciliation, hence no new placement), it is the last iteration of the
run, and the loop stops (`running` is cleared). -/
theorem c5 (cfg : BotCfg) (gfuel : ℕ) (ticks : List (Port × ℚ))
    (s sf : BotState) (traces : List (List LoopEv))
    (h : mainLoop cfg gfuel ticks s = some (sf, traces)) :
    (∀ t ∈ traces, ∃ b, t.head? = some (LoopEv.riskCheck b)) ∧
    (∀ t ∈ traces, t.Pairwise (fun a b => LoopEv.rank a ≤ LoopEv.rank b)) ∧
    (∀ t ∈ traces, LoopEv.riskCheck false ∈ t →
      (∀ e ∈ t, LoopEv.rank e = 0) ∧ traces.getLast? = some t ∧
      sf.running = false) := by
  induction ticks generalizing s sf traces with
  | nil =>
    rw [mainLoop] at h
    simp at h
    obtain ⟨rfl, rfl⟩ := h
    exact ⟨by simp, by simp, by simp⟩
  | cons tk rest ih =>
    obtain ⟨port, now⟩ := tk
    by_cases hr : s.running = true
    · rcases hb : botIteration cfg port now gfuel s with _ | ⟨s1, evs, cont⟩
      · rw [mainLoop_bot_none hr hb] at h
        exact Option.noConfusion h
      · cases cont with
        | false =>
          rw [mainLoop_step_stop hr hb] at h
          have h' : s1 = sf ∧ [evs] = traces := by simpa using h
          obtain ⟨rfl, rfl⟩ := h'
          obtain ⟨hc1, hc2, hc3⟩ := botIteration_cases hb
          refine ⟨?_, ?_, ?_⟩
          · intro t ht
            rcases List.mem_cons.mp ht with rfl | ht
            · exact hc1
            · cases ht
          · intro t ht
            rcases List.mem_cons.mp ht with rfl | ht
            · exact hc2
            · cases ht
          · intro t ht hm
            rcases List.mem_cons.mp ht with rfl | ht
            · obtain ⟨g1, -, g3⟩ := hc3 hm
              exact ⟨g1, by simp, g3⟩
            · cases ht
        | true =>
          rcases hm : mainLoop cfg gfuel rest s1 with _ | ⟨sf1, its⟩
          · rw [mainLoop_step_cont_none hr hb hm] at h
            exact Option.noConfusion h
          · rw [mainLoop_step_cont hr hb hm] at h
            have h' : sf1 = sf ∧ evs :: its = traces := by simpa using h
            obtain ⟨rfl, rfl⟩ := h'
            obtain ⟨ihA, ihB, ihC⟩ := ih s1 sf1 its hm
            obtain ⟨hc1, hc2, hc3⟩ := botIteration_cases hb
            refine ⟨?_, ?_, ?_⟩
            · intro t ht
              rcases List.mem_cons.mp ht with rfl | ht
              · exact hc1
              · exact ihA t ht
            · intro t ht
              rcases List.mem_cons.mp ht with rfl | ht
              · exact hc2
              · exact ihB t ht
            · intro t ht hmem
              rcases List.mem_cons.mp ht with rfl | ht
              · obtain ⟨-, hfalse, -⟩ := hc3 hmem
                exact absurd hfalse (by simp)
              · obtain ⟨g1, g2, g3⟩ := ihC t ht hmem
                refine ⟨g1, ?_, g3⟩
                cases its with
                | nil => simp at g2
                | cons x xs =>
                  rw [List.getLast?_cons_cons]
                  exact g2
    · have hr' : s.running = false := by simpa using hr
      rw [mainLoop_not_running hr'] at h
      have h' : s = sf ∧ ([] : List (List LoopEv)) = traces := by simpa using h
      obtain ⟨rfl, rfl⟩ := h'
      exact ⟨by simp, by simp, by simp⟩

/-- A port whose every fetch fails: metrics are unavailable, so the risk
check passes with no action. -/
def portC5 : Port :=
  ⟨none, none, none, none, fun _ _ _ _ => none, fun _ => false⟩

/-- A concrete configuration bundle for a one-tick run. -/
def cfgC5 : BotCfg :=
  ⟨⟨97, 103, 5, 1, 3⟩, ⟨false, 1, 1, 3⟩, ⟨true, 20, false, false, 50⟩,
   ⟨70, 7/10⟩, ⟨"BTCUSDT", 10, 1000⟩⟩

/-- A running bot whose engines are inactive and whose risk state is
fresh. -/
def botC5 : BotState :=
  ⟨true, ⟨false, [], [], 0, 0⟩, ⟨[], false, 0, [], none⟩,
   ⟨[], false, 0, 0, "down", [], none⟩⟩

/-- Witness for C5 at a concrete one-tick run: the single trace is
`[riskCheck true, statusLog]`. -/
theorem c5_witness :
    (∀ t ∈ [[LoopEv.riskCheck true, LoopEv.statusLog]],
        ∃ b, t.head? = some (LoopEv.riskCheck b)) ∧
    (∀ t ∈ [[LoopEv.riskCheck true, LoopEv.statusLog]],
        t.Pairwise (fun a b => LoopEv.rank a ≤ LoopEv.rank b)) ∧
    (∀ t ∈ [[LoopEv.riskCheck true, LoopEv.statusLog]],
        LoopEv.riskCheck false ∈ t →
          (∀ e ∈ t, LoopEv.rank e = 0) ∧
          ([[LoopEv.riskCheck true, LoopEv.statusLog]] :
            List (List LoopEv)).getLast? = some t ∧
          botC5.running = false) :=
  c5 cfgC5 1 [(portC5, 0)] botC5 botC5
    [[LoopEv.riskCheck true, LoopEv.statusLog]] rfl

end BybitBot
